import Mathlib

/-!
Verification of the VrikshaAI pipeline core: a shallow embedding, in Lean 4, of
the step-graph orchestrator (`langgraph-orchestrator.ts`, `langgraph-types.ts`,
`reflection-agent.ts`, `code-editor-agent.ts`), the rate-limit admission
controller (`redis-queue.ts`, `utils.ts`), the patch engine (`diff-engine.ts`)
and the symbol extractor (`ast-parser.ts`), together with theorems settling the
specification's claims about them.

Conventions used throughout the embedding:
* JavaScript strings are modelled as Lean `String`s; where the code splits a
  string on a separator character the split is embedded structurally (the
  library `String.splitOn` is avoided only because the embedding keeps every
  definition kernel-reducible).
* Asynchronous functions whose only effects are calls to external services
  (LLM providers, Redis, translation) are embedded as pure functions over an
  explicit environment supplying each call's outcome, and over a trace of the
  observable effects they issue.
* `number` counters that the code only ever uses as non-negative integers are
  modelled as `Nat`; `findBlockEnd`'s brace depth, which the code can drive
  below zero, is modelled as `Int`.
-/

/-! ## Basic string helpers (kernel-reducible stand-ins for JS string ops) -/

/-- `String.split('\n')` (and, generically, split on a single character):
structural embedding of the JS split used by `diff-engine.ts`/`ast-parser.ts`. -/
def splitCharAux (sep : Char) : List Char → List Char → List String
  | acc, [] => [String.mk acc.reverse]
  | acc, c :: cs =>
    if c = sep then String.mk acc.reverse :: splitCharAux sep [] cs
    else splitCharAux sep (c :: acc) cs

/-- Split a string on a single separator character, JS `s.split(sep)`. -/
def splitChar (sep : Char) (s : String) : List String := splitCharAux sep [] s.data

/-- JS `String.prototype.trimStart` (ASCII whitespace suffices for the inputs
the parser handles). -/
def jsTrimStart (s : String) : String := String.mk (s.data.dropWhile Char.isWhitespace)

/-- JS `String.prototype.trim`. -/
def jsTrim (s : String) : String :=
  String.mk (((s.data.dropWhile Char.isWhitespace).reverse.dropWhile Char.isWhitespace).reverse)

/-- Literal-prefix matcher: consume the characters of `pat` from the front of
`cs`, returning the rest, or `none` if `cs` does not start with `pat`. -/
def dropLit : List Char → List Char → Option (List Char)
  | [], cs => some cs
  | _ :: _, [] => none
  | p :: ps, c :: cs => if c = p then dropLit ps cs else none

/-- Whether `pat` occurs as a contiguous substring of `s`
(JS `String.prototype.includes`). -/
def listHasInfix (pat : List Char) : List Char → Bool
  | [] => (dropLit pat []).isSome
  | c :: cs => (dropLit pat (c :: cs)).isSome || listHasInfix pat cs

/-- JS `s.includes(pat)`. -/
def strIncludes (s pat : String) : Bool := listHasInfix pat.data s.data

/-! ## `langgraph-types.ts` — token estimation -/

/-- `estimateTokens` from `langgraph-types.ts`: `Math.ceil(text.length / 4)`. -/
def estimateTokens (text : String) : Nat := (text.length + 3) / 4

/-! ## `diff-engine.ts` — wrappers around the `diff` npm library

The npm `diff` library itself is an external dependency (its code is not part
of this repository); the repository's wrappers call its `Diff.applyPatch`,
which returns `string | false`.  That library function is modelled abstractly
as a parameter `lib : String → String → Option String` (`none` standing for
`false`), so the theorems about the wrappers hold for every behaviour of the
library. -/

namespace DiffEngine

/-- `applyPatch` from `diff-engine.ts`: apply a unified diff string, returning
the patched content or `null` (here `none`) when the library reports failure. -/
def applyPatch (lib : String → String → Option String)
    (originalContent patchText : String) : Option String :=
  match lib originalContent patchText with
  | none => none
  | some result => some result

/-- `validatePatch` from `diff-engine.ts`: dry-run check, `result !== false`. -/
def validatePatch (lib : String → String → Option String)
    (originalContent patchText : String) : Bool :=
  (lib originalContent patchText).isSome

end DiffEngine

/-! ## `redis-queue.ts` — token bucket and FIFO waitlist -/

namespace RedisQueue

/-- Per-provider rate ceilings, `PROVIDER_LIMITS` in `redis-queue.ts`. -/
structure RateLimits where
  rpm : Nat
  tpm : Nat
deriving DecidableEq, Repr

/-- The `PROVIDER_LIMITS` table (a JS record keyed by provider name). -/
def PROVIDER_LIMITS : String → Option RateLimits
  | "groq" => some ⟨30, 6000⟩
  | "bedrock" => some ⟨50, 200000⟩
  | "qwen" => some ⟨20, 40000⟩
  | "gemini" => some ⟨15, 1000000⟩
  | _ => none

/-- What one iteration of `waitForCapacity`'s loop observes from the shared
store and the clock: the `rpush` return value (waitlist position), the parsed
values of the two counter keys, and `Date.now()` at the top of the iteration. -/
structure IterObs where
  position : Nat
  currentRpm : Nat
  currentTpm : Nat
  nowMs : Nat
deriving DecidableEq, Repr

/-- Observable effects `waitForCapacity` issues against Redis, the status
callback (`onWaitlist`) and the timer. -/
inductive RedisOp
  | rpush (queueKey requestId : String)
  | get (key : String)
  | incr (key : String)
  | incrby (key : String) (amount : Nat)
  | expire (key : String) (seconds : Nat)
  | lrem (queueKey : String) (count : Nat) (requestId : String)
  | notify (position waitMs : Nat)
  | sleep (ms : Nat)
deriving DecidableEq, Repr

/-- How `waitForCapacity` returned. -/
inductive WaitOutcome
  | granted (iter : Nat)
  | proceededAfterCap
  | skippedNoRedis
  | skippedNoLimits
deriving DecidableEq, Repr

def queueKey (provider : String) : String := "queue:vriksha:" ++ provider

def rpmKey (provider : String) (minute : Nat) : String :=
  "rate_limit:vriksha:" ++ provider ++ ":rpm:" ++ toString minute

def tpmKey (provider : String) (minute : Nat) : String :=
  "rate_limit:vriksha:" ++ provider ++ ":tpm:" ++ toString minute

/-- The grant test of one loop iteration:
`hasRpm && hasTpm && isFirst` in `waitForCapacity`. -/
def hasCapacity (limits : RateLimits) (estimatedTokens : Nat) (obs : IterObs) : Bool :=
  decide (obs.currentRpm < limits.rpm) &&
  decide (obs.currentTpm + estimatedTokens ≤ limits.tpm) &&
  (obs.position == 1)

/-- `60_000 - (Date.now() % 60_000) + 100`, the precise wait until the current
minute window resets plus a small buffer. -/
def waitDelayMs (obs : IterObs) : Nat := 60000 - obs.nowMs % 60000 + 100

/-- The reads performed at the top of every iteration (join the waitlist, read
both counters). -/
def iterReadOps (provider requestId : String) (obs : IterObs) : List RedisOp :=
  [ .rpush (queueKey provider) requestId,
    .get (rpmKey provider (obs.nowMs / 60000)),
    .get (tpmKey provider (obs.nowMs / 60000)) ]

/-- The atomic `multi`/`exec` batch run on a grant: increment both counters,
set their expiries, and dequeue. -/
def claimOps (provider requestId : String) (estimatedTokens : Nat) (obs : IterObs) :
    List RedisOp :=
  [ .incr (rpmKey provider (obs.nowMs / 60000)),
    .incrby (tpmKey provider (obs.nowMs / 60000)) estimatedTokens,
    .expire (rpmKey provider (obs.nowMs / 60000)) 65,
    .expire (tpmKey provider (obs.nowMs / 60000)) 65,
    .lrem (queueKey provider) 1 requestId ]

/-- The effects of a non-grant iteration: drop the waitlist slot, notify the
status callback with `(position, waitMs)`, and sleep. -/
def requeueOps (provider requestId : String) (obs : IterObs) : List RedisOp :=
  [ .lrem (queueKey provider) 1 requestId,
    .notify obs.position (waitDelayMs obs),
    .sleep (waitDelayMs obs) ]

/-- `MAX_WAITS` in `waitForCapacity`. -/
def MAX_WAITS : Nat := 10

/-- The `for (waitCount = 0; waitCount < MAX_WAITS; waitCount++)` loop of
`waitForCapacity`, with `env` supplying each iteration's observations and
`fuel` the number of remaining iterations. -/
def waitLoop (limits : RateLimits) (estimatedTokens : Nat) (provider requestId : String)
    (env : Nat → IterObs) : Nat → Nat → List RedisOp × WaitOutcome
  | _, 0 => ([], .proceededAfterCap)
  | waitCount, fuel + 1 =>
    let obs := env waitCount
    if hasCapacity limits estimatedTokens obs then
      (iterReadOps provider requestId obs ++ claimOps provider requestId estimatedTokens obs,
       .granted waitCount)
    else
      let rest := waitLoop limits estimatedTokens provider requestId env (waitCount + 1) fuel
      (iterReadOps provider requestId obs ++ requeueOps provider requestId obs ++ rest.1,
       rest.2)

/-- `waitForCapacity` from `redis-queue.ts`.  `redisAvailable` models whether
`getRedis()` returned a connection (it returns `null` when the store is not
configured or unreachable); `requestId` models the random slot id; `env`
supplies each iteration's observations of the shared store and clock. -/
def waitForCapacity (redisAvailable : Bool) (provider : String) (estimatedTokens : Nat)
    (requestId : String) (env : Nat → IterObs) : List RedisOp × WaitOutcome :=
  if !redisAvailable then ([], .skippedNoRedis)
  else
    match PROVIDER_LIMITS provider with
    | none => ([], .skippedNoLimits)
    | some limits => waitLoop limits estimatedTokens provider requestId env 0 MAX_WAITS

end RedisQueue

/-! ## `utils.ts` — `withSmartRetries` -/

namespace Utils

/-- A thrown JS error as `withSmartRetries` inspects it: its `message` string
and its optional numeric `status` property. -/
structure JsError where
  message : String
  status : Option Nat
deriving DecidableEq, Repr

/-- Observable events of one `withSmartRetries` run: an invocation of the
wrapped `apiCall` (labelled with the attempt number), an `onStatus`
notification for an upcoming retry (carrying the next attempt number and the
wait in milliseconds), and a sleep. -/
inductive RetryEvent
  | called (attempt : Nat)
  | status (nextAttempt waitMs : Nat)
  | slept (ms : Nat)
deriving DecidableEq, Repr

/-- How a `withSmartRetries` run ended: a successful return, the final
attempt's own error rethrown from inside the loop, or the generic
`API request to ... failed after ... retries.` error thrown after the loop. -/
inductive RetryResult (T : Type)
  | success (value : T)
  | attemptError (e : JsError)
  | fallthroughError (message : String)
deriving DecidableEq, Repr

/-- The rate-limit classification in the catch block:
`msg.includes('429') || error?.status === 429`. -/
def isRateLimitError (e : JsError) : Bool :=
  strIncludes e.message "429" || (e.status == some 429)

/-- `waitTime`: 10 s for a throttling error, else `2^attempt` seconds
(in milliseconds). -/
def backoffMs (attempt : Nat) (e : JsError) : Nat :=
  if isRateLimitError e then 10000 else 2 ^ attempt * 1000

/-- The generic error text thrown after the loop. -/
def fallthroughMessage (provider : String) (maxRetries : Nat) : String :=
  "API request to " ++ provider ++ " failed after " ++ toString maxRetries ++ " retries."

/-- The `for (attempt = 1; attempt <= maxRetries; attempt++)` loop of
`withSmartRetries`.  `call attempt` gives the outcome of the `apiCall`
invocation made on that attempt (the admission-controller gate that precedes
it is modelled separately by `RedisQueue.waitForCapacity`); `fuel` is the
number of loop iterations still permitted, `maxRetries + 1 - attempt` at every
call site. -/
def retryAux {T : Type} (provider : String) (call : Nat → Except JsError T)
    (maxRetries : Nat) : Nat → Nat → List RetryEvent × RetryResult T
  | _, 0 => ([], .fallthroughError (fallthroughMessage provider maxRetries))
  | attempt, fuel + 1 =>
    match call attempt with
    | .ok v => ([.called attempt], .success v)
    | .error e =>
      if attempt = maxRetries then ([.called attempt], .attemptError e)
      else
        let w := backoffMs attempt e
        let rest := retryAux provider call maxRetries (attempt + 1) fuel
        (.called attempt :: .status (attempt + 1) w :: .slept w :: rest.1, rest.2)

/-- `withSmartRetries` from `utils.ts` (trace of observable events plus
result). -/
def withSmartRetries {T : Type} (provider : String) (call : Nat → Except JsError T)
    (maxRetries : Nat := 3) : List RetryEvent × RetryResult T :=
  retryAux provider call maxRetries 1 maxRetries

/-- Number of `apiCall` invocations recorded in a trace. -/
def callCount (trace : List RetryEvent) : Nat :=
  trace.countP fun ev => match ev with | .called _ => true | _ => false

end Utils

/-! ## The unified-diff engine behind `createUnifiedDiff`/`applyPatch`

`diff-engine.ts` delegates diff generation and application to the npm `diff`
library, which is an external dependency whose source is not part of this
repository.  To settle the round-trip law the library's relevant behaviour is
modelled here from the specification. -/

namespace SpecDiff

/-- Modelled from the spec: file text handled by the diff engine.  The library
operates line-wise on `content.split("\n")`; a JS string is represented by its
newline-split line list (`"\n".intercalate` is the inverse bijection, and a
non-empty string corresponds to a line list other than `[""]`). -/
def Text : Type := List String

instance : DecidableEq Text := inferInstanceAs (DecidableEq (List String))

/-- Modelled from the spec: one line of a unified-diff hunk body — a context
line (leading `' '`), a removal (`'-'`) or an insertion (`'+'`). -/
inductive PatchLine
  | ctx (s : String)
  | del (s : String)
  | ins (s : String)
deriving DecidableEq, Repr

/-- Modelled from the spec: a hunk of a unified diff, `@@ -oldStart,oldLines
+newStart,newLines @@` followed by its body lines (the same shape as the
repository's own `DiffHunk` interface in `diff-engine.ts`). -/
structure DiffHunk where
  oldStart : Nat
  oldLines : Nat
  newStart : Nat
  newLines : Nat
  lines : List PatchLine
deriving DecidableEq, Repr

/-- Modelled from the spec: a whole unified-diff patch — the `a/`,`b/` header
paths plus the hunks (the textual rendering of such a patch is a bijective
serialization, so patch text is modelled at this parsed level). -/
structure FilePatch where
  oldPath : String
  newPath : String
  hunks : List DiffHunk
deriving DecidableEq, Repr

/-- Longest common prefix of two line lists. -/
def commonStart : List String → List String → List String
  | [], _ => []
  | _, [] => []
  | a :: as, b :: bs => if a = b then a :: commonStart as bs else []

/-- Longest common suffix of two line lists. -/
def commonEnd (a b : List String) : List String :=
  (commonStart a.reverse b.reverse).reverse

/-- The last `n` elements of a list. -/
def takeEnd (n : Nat) (l : List String) : List String := l.drop (l.length - n)

/-- All but the last `n` elements of a list. -/
def dropEnd (n : Nat) (l : List String) : List String := l.take (l.length - n)

/-- Number of old-file lines a hunk body covers (context plus removals). -/
def hunkOldCount : List PatchLine → Nat
  | [] => 0
  | .ctx _ :: ls => hunkOldCount ls + 1
  | .del _ :: ls => hunkOldCount ls + 1
  | .ins _ :: ls => hunkOldCount ls

/-- Number of new-file lines a hunk body covers (context plus insertions). -/
def hunkNewCount : List PatchLine → Nat
  | [] => 0
  | .ctx _ :: ls => hunkNewCount ls + 1
  | .del _ :: ls => hunkNewCount ls
  | .ins _ :: ls => hunkNewCount ls + 1

/-- Modelled from the spec: `createUnifiedDiff(filePath, oldContent,
newContent, contextLines = 3)` — the changed region (old lines replaced by new
lines) surrounded by up to `contextLines` lines of unchanged context, with
paths prefixed `a/`,`b/`; equal inputs yield a patch with no hunks. -/
def createUnifiedDiff (filePath : String) (oldContent newContent : Text)
    (contextLines : Nat := 3) : FilePatch :=
  let p := commonStart oldContent newContent
  let oldRest := oldContent.drop p.length
  let newRest := newContent.drop p.length
  let s := commonEnd oldRest newRest
  let oldMid := dropEnd s.length oldRest
  let newMid := dropEnd s.length newRest
  if oldMid = [] ∧ newMid = [] then
    ⟨"a/" ++ filePath, "b/" ++ filePath, []⟩
  else
    let cb := takeEnd contextLines p
    let ca := s.take contextLines
    let start := p.length - cb.length
    ⟨"a/" ++ filePath, "b/" ++ filePath,
      [⟨start + 1, cb.length + oldMid.length + ca.length,
        start + 1, cb.length + newMid.length + ca.length,
        cb.map .ctx ++ oldMid.map .del ++ newMid.map .ins ++ ca.map .ctx⟩]⟩

/-- Modelled from the spec: run one hunk body against the old lines starting
at the hunk's position.  Context and removal lines must match the old text
exactly (otherwise application fails); returns the lines the hunk emits and
how many old lines it consumed. -/
def applyBody : List PatchLine → List String → Option (List String × Nat)
  | [], _ => some ([], 0)
  | .ctx s :: ls, o :: os =>
    if s = o then (applyBody ls os).map (fun r => (s :: r.1, r.2 + 1)) else none
  | .ctx _ :: _, [] => none
  | .del s :: ls, o :: os =>
    if s = o then (applyBody ls os).map (fun r => (r.1, r.2 + 1)) else none
  | .del _ :: _, [] => none
  | .ins s :: ls, os => (applyBody ls os).map (fun r => (s :: r.1, r.2))

/-- Modelled from the spec: apply hunks in order; `pos` is the number of old
lines already consumed.  A hunk starting before the cursor, with header counts
inconsistent with its body, or whose context/removal lines do not match the
old text at the claimed offsets, fails the whole application. -/
def applyHunks (oldContent : List String) : Nat → List DiffHunk → Option (List String)
  | pos, [] => some (oldContent.drop pos)
  | pos, h :: rest =>
    if h.oldStart < pos + 1 then none
    else if hunkOldCount h.lines ≠ h.oldLines ∨ hunkNewCount h.lines ≠ h.newLines then none
    else
      match applyBody h.lines (oldContent.drop (h.oldStart - 1)) with
      | none => none
      | some (out, consumed) =>
        match applyHunks oldContent (h.oldStart - 1 + consumed) rest with
        | none => none
        | some tail => some ((oldContent.drop pos).take (h.oldStart - 1 - pos) ++ out ++ tail)

/-- Modelled from the spec: `applyPatch(originalContent, patchText)` — apply a
unified diff to content, `none` when the diff's context does not match. -/
def applyPatch (originalContent : Text) (patch : FilePatch) : Option Text :=
  applyHunks originalContent 0 patch.hunks

end SpecDiff

/-! ## `ast-parser.ts` — regex-based symbol extraction

Each of the file's anchored regular expressions is embedded as an explicit
matcher over the line's characters.  The alternations and optional groups in
those patterns are over disjoint literals, so the straight-line matchers below
compute exactly what the backtracking regex engine would. -/

namespace AstParse

/-- `SymbolKind` from `ast-parser.ts`. -/
inductive SymbolKind
  | function
  | «class»
  | interface
  | type
  | variable
  | resource
  | block
  | «import»
  | «export»
  | method
deriving DecidableEq, Repr

/-- `CodeSymbol` from `ast-parser.ts` (the optional `children` field is never
populated by this file and is omitted). -/
structure CodeSymbol where
  name : String
  kind : SymbolKind
  startLine : Nat
  endLine : Nat
  indent : Nat
  signature : String
deriving DecidableEq, Repr

/-- JS `\w` character class. -/
def isWordChar (c : Char) : Bool := c.isAlphanum || c = '_'

/-- `\s+`: require at least one whitespace character, consume the run. -/
def dropWs1 : List Char → Option (List Char)
  | c :: cs => if c.isWhitespace then some (cs.dropWhile Char.isWhitespace) else none
  | [] => none

/-- `\s*`: consume any whitespace run. -/
def dropWs (cs : List Char) : List Char := cs.dropWhile Char.isWhitespace

/-- `(\w+)`: capture a maximal non-empty word, returning it and the rest. -/
def takeWord1 : List Char → Option (String × List Char)
  | c :: cs =>
    if isWordChar c then some (String.mk (c :: cs.takeWhile isWordChar), cs.dropWhile isWordChar)
    else none
  | [] => none

/-- `(?:kw\s+)?`: optionally consume the keyword `kw` followed by mandatory
whitespace; on failure the group matches empty. -/
def optKw (kw : String) (cs : List Char) : List Char :=
  match dropLit kw.data cs with
  | some rest =>
    match dropWs1 rest with
    | some rest2 => rest2
    | none => cs
  | none => cs

/-- `(?:kw₁|kw₂|…)`: first alternative whose literal matches. -/
def dropAlt : List String → List Char → Option (List Char)
  | [], _ => none
  | kw :: kws, cs =>
    match dropLit kw.data cs with
    | some rest => some rest
    | none => dropAlt kws cs

/-- `/^(?:export\s+)?(?:async\s+)?function\s+(\w+)/` -/
def matchTSFunctionDecl (cs : List Char) : Option String := do
  let cs := optKw "export" cs
  let cs := optKw "async" cs
  let cs ← dropLit "function".data cs
  let cs ← dropWs1 cs
  let (name, _) ← takeWord1 cs
  pure name

/-- `/^(?:export\s+)?(?:const|let|var)\s+(\w+)\s*=\s*(?:async\s+)?(?:\(|function)/` -/
def matchTSFunctionVar (cs : List Char) : Option String := do
  let cs := optKw "export" cs
  let cs ← dropAlt ["const", "let", "var"] cs
  let cs ← dropWs1 cs
  let (name, cs) ← takeWord1 cs
  let cs := dropWs cs
  let cs ← dropLit "=".data cs
  let cs := dropWs cs
  let cs := optKw "async" cs
  match cs with
  | '(' :: _ => pure name
  | _ => if (dropLit "function".data cs).isSome then pure name else none

/-- `/^(?:export\s+)?class\s+(\w+)/` -/
def matchTSClass (cs : List Char) : Option String := do
  let cs := optKw "export" cs
  let cs ← dropLit "class".data cs
  let cs ← dropWs1 cs
  let (name, _) ← takeWord1 cs
  pure name

/-- `/^(?:export\s+)?interface\s+(\w+)/` -/
def matchTSInterface (cs : List Char) : Option String := do
  let cs := optKw "export" cs
  let cs ← dropLit "interface".data cs
  let cs ← dropWs1 cs
  let (name, _) ← takeWord1 cs
  pure name

/-- `/^(?:export\s+)?type\s+(\w+)/` -/
def matchTSType (cs : List Char) : Option String := do
  let cs := optKw "export" cs
  let cs ← dropLit "type".data cs
  let cs ← dropWs1 cs
  let (name, _) ← takeWord1 cs
  pure name

/-- `/^(?:export\s+)?(?:const|let|var)\s+(\w+)\s*(?::\s*\w+)?\s*=/` -/
def matchTSVariable (cs : List Char) : Option String := do
  let cs := optKw "export" cs
  let cs ← dropAlt ["const", "let", "var"] cs
  let cs ← dropWs1 cs
  let (name, cs) ← takeWord1 cs
  let cs := dropWs cs
  let cs :=
    match cs with
    | ':' :: cs2 =>
      match takeWord1 (dropWs cs2) with
      | some (_, cs3) => cs3
      | none => cs
    | _ => cs
  let cs := dropWs cs
  let _ ← dropLit "=".data cs
  pure name

/-- `/^\s+(?:async\s+)?(\w+)\s*\(/` (the method pattern; it is matched against
the already-trimmed line, so the mandatory leading whitespace is kept). -/
def matchTSMethod (cs : List Char) : Option String := do
  let cs ← dropWs1 cs
  let cs := optKw "async" cs
  let (name, cs) ← takeWord1 cs
  let cs := dropWs cs
  match cs with
  | '(' :: _ => pure name
  | _ => none

/-- The ordered pattern table of `extractTSSymbols`; the first match wins. -/
def tsFirstMatch (cs : List Char) : Option (String × SymbolKind) :=
  match matchTSFunctionDecl cs with
  | some n => some (n, .function)
  | none =>
  match matchTSFunctionVar cs with
  | some n => some (n, .function)
  | none =>
  match matchTSClass cs with
  | some n => some (n, .«class»)
  | none =>
  match matchTSInterface cs with
  | some n => some (n, .interface)
  | none =>
  match matchTSType cs with
  | some n => some (n, .type)
  | none =>
  match matchTSVariable cs with
  | some n => some (n, .variable)
  | none =>
  match matchTSMethod cs with
  | some n => some (n, .method)
  | none => none

/-- Character scan of one line in `findBlockEnd`: `.inl ()` when the matching
close was found on this line (`depth === 0 && found` after a decrement),
otherwise the carried `(depth, found)` state.  The depth is an `Int` because
the code decrements without a lower bound. -/
def scanChars (openc closec : Char) : List Char → Int → Bool → Unit ⊕ (Int × Bool)
  | [], depth, found => .inr (depth, found)
  | c :: cs, depth, found =>
    if c = openc then scanChars openc closec cs (depth + 1) true
    else if c = closec then
      if depth - 1 = 0 ∧ found then .inl () else scanChars openc closec cs (depth - 1) found
    else scanChars openc closec cs depth found

/-- The line loop of `findBlockEnd`, over the lines from `startIdx` on. -/
def findBlockEndAux (openc closec : Char) : Nat → List String → Int → Bool → Option Nat
  | _, [], _, _ => none
  | i, l :: rest, depth, found =>
    match scanChars openc closec l.data depth found with
    | .inl () => some i
    | .inr (depth', found') => findBlockEndAux openc closec (i + 1) rest depth' found'

/-- `findBlockEnd` from `ast-parser.ts`: index of the line closing the block
opened at or after `startIdx`, with the `min(startIdx + 50, lines.length - 1)`
fallback when no close is found. -/
def findBlockEnd (lines : List String) (startIdx : Nat) (openc closec : Char) : Nat :=
  match findBlockEndAux openc closec startIdx (lines.drop startIdx) 0 false with
  | some i => i
  | none => min (startIdx + 50) (lines.length - 1)

/-- `findPythonBlockEnd`'s scan from `startIdx + 1` on. -/
def findPythonBlockEndAux (baseIndent : Nat) : Nat → List String → Option Nat
  | _, [] => none
  | i, l :: rest =>
    if jsTrim l = "" then findPythonBlockEndAux baseIndent (i + 1) rest
    else
      let indent := l.length - (jsTrimStart l).length
      if indent ≤ baseIndent then some (i - 1) else findPythonBlockEndAux baseIndent (i + 1) rest

/-- `findPythonBlockEnd` from `ast-parser.ts`. -/
def findPythonBlockEnd (lines : List String) (startIdx baseIndent : Nat) : Nat :=
  match findPythonBlockEndAux baseIndent (startIdx + 1) (lines.drop (startIdx + 1)) with
  | some i => i
  | none => lines.length - 1

/-- Stable insertion into a list already sorted by `startLine`: the new
element goes after every element with a smaller-or-equal start line. -/
def insertByStart (x : CodeSymbol) : List CodeSymbol → List CodeSymbol
  | [] => [x]
  | y :: ys => if y.startLine ≤ x.startLine then y :: insertByStart x ys else x :: y :: ys

/-- Stable ascending sort by `startLine`, the behaviour of the JS in-place
`sort((a, b) => a.startLine - b.startLine)` (stable per the ECMAScript spec). -/
def sortByStartLine (symbols : List CodeSymbol) : List CodeSymbol :=
  symbols.foldl (fun acc x => insertByStart x acc) []

/-- `deduplicateSymbols` from `ast-parser.ts`: sort by start line, then drop
symbols starting inside a previously kept symbol's range, except methods.
`lastEnd` starts at `-1`, so it is carried as an `Int`. -/
def deduplicateSymbols (symbols : List CodeSymbol) : List CodeSymbol :=
  let sorted := sortByStartLine symbols
  (sorted.foldl
    (fun (acc : List CodeSymbol × Int) sym =>
      if (sym.startLine : Int) > acc.2 ∨ sym.kind = .method then
        (acc.1 ++ [sym], if (sym.endLine : Int) > acc.2 then (sym.endLine : Int) else acc.2)
      else acc)
    ([], -1)).1

/-- The per-line body of `extractTSSymbols`' scan. -/
def tsLineSymbol (lines : List String) (i : Nat) (line : String) : Option CodeSymbol :=
  let trimmed := jsTrimStart line
  let indent := line.length - trimmed.length
  match tsFirstMatch trimmed.data with
  | none => none
  | some (name, kind) =>
    let endLine := findBlockEnd lines i '\x7b' '\x7d'
    some ⟨name, kind, i + 1, endLine + 1, indent,
          jsTrim ((splitChar '\x7b' trimmed).headD "")⟩

/-- `extractTSSymbols` from `ast-parser.ts`. -/
def extractTSSymbols (content : String) : List CodeSymbol :=
  let lines := splitChar '\n' content
  deduplicateSymbols (lines.enum.filterMap (fun p => tsLineSymbol lines p.1 p.2))

/-- `/^(?:async\s+)?def\s+(\w+)\s*\(/` -/
def matchPyDef (cs : List Char) : Option String := do
  let cs := optKw "async" cs
  let cs ← dropLit "def".data cs
  let cs ← dropWs1 cs
  let (name, cs) ← takeWord1 cs
  match dropWs cs with
  | '(' :: _ => pure name
  | _ => none

/-- `/^class\s+(\w+)/` -/
def matchPyClass (cs : List Char) : Option String := do
  let cs ← dropLit "class".data cs
  let cs ← dropWs1 cs
  let (name, _) ← takeWord1 cs
  pure name

/-- Per-line body of `extractPythonSymbols` (a `def` match takes priority via
`continue`). -/
def pyLineSymbol (lines : List String) (i : Nat) (line : String) : Option CodeSymbol :=
  let trimmed := jsTrimStart line
  let indent := line.length - trimmed.length
  match matchPyDef trimmed.data with
  | some name =>
    let endLine := findPythonBlockEnd lines i indent
    some ⟨name, .function, i + 1, endLine + 1, indent,
          jsTrim ((splitChar ':' trimmed).headD "")⟩
  | none =>
  match matchPyClass trimmed.data with
  | some name =>
    let endLine := findPythonBlockEnd lines i indent
    some ⟨name, .«class», i + 1, endLine + 1, indent,
          jsTrim ((splitChar ':' trimmed).headD "")⟩
  | none => none

/-- `extractPythonSymbols` from `ast-parser.ts` (no deduplication pass). -/
def extractPythonSymbols (content : String) : List CodeSymbol :=
  let lines := splitChar '\n' content
  lines.enum.filterMap (fun p => pyLineSymbol lines p.1 p.2)

/-- `/^resource\s+"(\w+)"\s+"(\w+)"/` -/
def matchTfResource (cs : List Char) : Option (String × String) := do
  let cs ← dropLit "resource".data cs
  let cs ← dropWs1 cs
  let cs ← dropLit "\"".data cs
  let (a, cs) ← takeWord1 cs
  let cs ← dropLit "\"".data cs
  let cs ← dropWs1 cs
  let cs ← dropLit "\"".data cs
  let (b, _) ← takeWord1 cs
  pure (a, b)

/-- `/^(variable|output|data|locals|module|provider)\s+"?(\w+)"?/` (the second
capture is what the code uses; the trailing optional quote affects nothing). -/
def matchTfBlock (cs : List Char) : Option (String × String) := do
  let kws := ["variable", "output", "data", "locals", "module", "provider"]
  let (kw, cs) ←
    match kws.findSome? (fun kw => (dropLit kw.data cs).map (fun rest => (kw, rest))) with
    | some r => some r
    | none => none
  let cs ← dropWs1 cs
  let cs := match cs with | '"' :: rest => rest | _ => cs
  let (b, _) ← takeWord1 cs
  pure (kw, b)

/-- Per-line body of `extractTerraformSymbols`. -/
def tfLineSymbol (lines : List String) (i : Nat) (line : String) : Option CodeSymbol :=
  let trimmed := jsTrimStart line
  match matchTfResource trimmed.data with
  | some (a, b) =>
    let endLine := findBlockEnd lines i '\x7b' '\x7d'
    some ⟨a ++ "." ++ b, .resource, i + 1, endLine + 1, 0,
          jsTrim ((splitChar '\x7b' trimmed).headD "")⟩
  | none =>
  match matchTfBlock trimmed.data with
  | some (a, b) =>
    let endLine := findBlockEnd lines i '\x7b' '\x7d'
    some ⟨a ++ "." ++ b, .block, i + 1, endLine + 1, 0,
          jsTrim ((splitChar '\x7b' trimmed).headD "")⟩
  | none => none

/-- `extractTerraformSymbols` from `ast-parser.ts`. -/
def extractTerraformSymbols (content : String) : List CodeSymbol :=
  let lines := splitChar '\n' content
  lines.enum.filterMap (fun p => tfLineSymbol lines p.1 p.2)

/-- `/^func\s+(?:\(\w+\s+\*?\w+\)\s+)?(\w+)\s*\(/` -/
def matchGoFunc (cs : List Char) : Option String := do
  let cs ← dropLit "func".data cs
  let cs ← dropWs1 cs
  let cs :=
    match cs with
    | '(' :: cs2 =>
      match (do
        let (_, r) ← takeWord1 cs2
        let r ← dropWs1 r
        let r := match r with | '*' :: r2 => r2 | _ => r
        let (_, r) ← takeWord1 r
        let r ← dropLit ")".data r
        dropWs1 r : Option (List Char)) with
      | some r => r
      | none => cs
    | _ => cs
  let (name, cs) ← takeWord1 cs
  match dropWs cs with
  | '(' :: _ => pure name
  | _ => none

/-- `/^type\s+(\w+)\s+struct/` -/
def matchGoStruct (cs : List Char) : Option String := do
  let cs ← dropLit "type".data cs
  let cs ← dropWs1 cs
  let (name, cs) ← takeWord1 cs
  let cs ← dropWs1 cs
  let _ ← dropLit "struct".data cs
  pure name

/-- Per-line body of `extractGoSymbols`. -/
def goLineSymbol (lines : List String) (i : Nat) (line : String) : Option CodeSymbol :=
  let trimmed := jsTrimStart line
  match matchGoFunc trimmed.data with
  | some name =>
    let endLine := findBlockEnd lines i '\x7b' '\x7d'
    some ⟨name, .function, i + 1, endLine + 1, 0, jsTrim ((splitChar '\x7b' trimmed).headD "")⟩
  | none =>
  match matchGoStruct trimmed.data with
  | some name =>
    let endLine := findBlockEnd lines i '\x7b' '\x7d'
    some ⟨name, .«class», i + 1, endLine + 1, 0, jsTrim ((splitChar '\x7b' trimmed).headD "")⟩
  | none => none

/-- `extractGoSymbols` from `ast-parser.ts`. -/
def extractGoSymbols (content : String) : List CodeSymbol :=
  let lines := splitChar '\n' content
  lines.enum.filterMap (fun p => goLineSymbol lines p.1 p.2)

/-- `/^(?:pub\s+)?(?:async\s+)?fn\s+(\w+)/` -/
def matchRustFn (cs : List Char) : Option String := do
  let cs := optKw "pub" cs
  let cs := optKw "async" cs
  let cs ← dropLit "fn".data cs
  let cs ← dropWs1 cs
  let (name, _) ← takeWord1 cs
  pure name

/-- `/^(?:pub\s+)?struct\s+(\w+)/` -/
def matchRustStruct (cs : List Char) : Option String := do
  let cs := optKw "pub" cs
  let cs ← dropLit "struct".data cs
  let cs ← dropWs1 cs
  let (name, _) ← takeWord1 cs
  pure name

/-- Per-line body of `extractRustSymbols`. -/
def rustLineSymbol (lines : List String) (i : Nat) (line : String) : Option CodeSymbol :=
  let trimmed := jsTrimStart line
  match matchRustFn trimmed.data with
  | some name =>
    let endLine := findBlockEnd lines i '\x7b' '\x7d'
    some ⟨name, .function, i + 1, endLine + 1, 0, jsTrim ((splitChar '\x7b' trimmed).headD "")⟩
  | none =>
  match matchRustStruct trimmed.data with
  | some name =>
    let endLine := findBlockEnd lines i '\x7b' '\x7d'
    some ⟨name, .«class», i + 1, endLine + 1, 0, jsTrim ((splitChar '\x7b' trimmed).headD "")⟩
  | none => none

/-- `extractRustSymbols` from `ast-parser.ts`. -/
def extractRustSymbols (content : String) : List CodeSymbol :=
  let lines := splitChar '\n' content
  lines.enum.filterMap (fun p => rustLineSymbol lines p.1 p.2)

/-- `/^(?:function|def|fn|func|class|struct|interface|type|resource)\s+(\w+)/` -/
def matchGeneric (cs : List Char) : Option String := do
  let kws := ["function", "def", "fn", "func", "class", "struct", "interface", "type",
              "resource"]
  let cs ← dropAlt kws cs
  let cs ← dropWs1 cs
  let (name, _) ← takeWord1 cs
  pure name

/-- `trimmed.split(/[{:]/)[0]`: take the line up to the first `{` or `:`. -/
def genericSigHead (s : String) : String :=
  String.mk (s.data.takeWhile (fun c => c ≠ '\x7b' ∧ c ≠ ':'))

/-- Per-line body of `extractGenericSymbols`. -/
def genericLineSymbol (lines : List String) (i : Nat) (line : String) : Option CodeSymbol :=
  let trimmed := jsTrimStart line
  match matchGeneric trimmed.data with
  | some name =>
    let endLine := findBlockEnd lines i '\x7b' '\x7d'
    some ⟨name, .function, i + 1, endLine + 1, 0, jsTrim (genericSigHead trimmed)⟩
  | none => none

/-- `extractGenericSymbols` from `ast-parser.ts`. -/
def extractGenericSymbols (content : String) : List CodeSymbol :=
  let lines := splitChar '\n' content
  lines.enum.filterMap (fun p => genericLineSymbol lines p.1 p.2)

/-- `extractSymbols` from `ast-parser.ts`: dispatch on the language id. -/
def extractSymbols (content : String) (language : String) : List CodeSymbol :=
  match language with
  | "typescript" => extractTSSymbols content
  | "javascript" => extractTSSymbols content
  | "python" => extractPythonSymbols content
  | "hcl" => extractTerraformSymbols content
  | "go" => extractGoSymbols content
  | "rust" => extractRustSymbols content
  | _ => extractGenericSymbols content

end AstParse

/-! ## `langgraph-types.ts` and the agent nodes

The pipeline state is embedded with the fields the step executors below read
or write (`currentNode`, `error`, `plan`, `currentStepIndex`, `pendingDiffs`,
`appliedPatches`, `codebase`, `tokensUsed`, `isProcessing`, the two generated
documents).  Purely presentational fields (conversation transcript, raw input
and language, architecture diagram data, the float `estimatedCost`, and the
timestamps) are not represented.  A JS `Record<string, CodeFile>` is embedded
extensionally as a lookup function. -/

namespace LangGraph

/-- `LangGraphNodeId` from `langgraph-types.ts`. -/
inductive NodeId
  | ingestion
  | planning
  | retrieval
  | ast_parsing
  | editing
  | reflection
  | deployment
  | responding
  | idle
  | error
deriving DecidableEq, Repr

/-- `UnifiedDiff` from `langgraph-types.ts` (`lineRange` flattened into its
two fields). -/
structure UnifiedDiff where
  filePath : String
  originalContent : String
  patchedContent : String
  diff : String
  targetSymbol : Option String
  lineRangeStart : Nat
  lineRangeEnd : Nat
deriving DecidableEq, Repr

/-- `PatchResult` from `langgraph-types.ts`. -/
structure PatchResult where
  success : Bool
  filePath : String
  error : Option String
  syntaxValid : Option Bool
deriving DecidableEq, Repr

/-- A `PlanStep.action` value. -/
inductive PlanAction
  | create
  | edit
  | delete
  | search
  | explain
deriving DecidableEq, Repr

/-- `PlanStep` from `langgraph-types.ts`. -/
structure PlanStep where
  id : String
  action : PlanAction
  file : String
  symbol : Option String
  description : String
  rationale : Option String
  completed : Bool
  diff : Option UnifiedDiff
  error : Option String
deriving DecidableEq, Repr

/-- `ExecutionPlan` from `langgraph-types.ts` (the `intent`,
`clarifyingQuestions` and `createdAt` metadata fields are not read by the
executors modelled here and are omitted). -/
structure ExecutionPlan where
  goal : String
  steps : List PlanStep
deriving DecidableEq, Repr

/-- `CodeFile` from `langgraph-types.ts` (the cached `symbols` field is
omitted; `lastModified` is an epoch timestamp). -/
structure CodeFile where
  path : String
  content : String
  language : String
  lastModified : Nat
deriving DecidableEq, Repr

/-- `CodebaseState` from `langgraph-types.ts` (`embeddings` omitted). -/
structure CodebaseState where
  files : String → Option CodeFile
  lastIndexed : Nat

/-- The modelled slice of `VrikshaState`. -/
structure VrikshaState where
  currentNode : NodeId
  error : Option String
  plan : Option ExecutionPlan
  currentStepIndex : Nat
  pendingDiffs : List UnifiedDiff
  appliedPatches : List PatchResult
  codebase : CodebaseState
  tokensUsed : Nat
  isProcessing : Bool
  samjhaoMarkdown : Option String
  deploymentDocs : Option String

/-- A `Partial<VrikshaState>` over the modelled fields: `some v` means the
update object carries the property with value `v` (so `some none` for a field
explicitly set to `undefined`), `none` that the property is absent. -/
structure StateUpdates where
  error : Option (Option String) := none
  plan : Option (Option ExecutionPlan) := none
  currentStepIndex : Option Nat := none
  pendingDiffs : Option (List UnifiedDiff) := none
  appliedPatches : Option (List PatchResult) := none
  codebase : Option CodebaseState := none
  tokensUsed : Option Nat := none
  isProcessing : Option Bool := none
  samjhaoMarkdown : Option String := none
  deploymentDocs : Option String := none

/-- `updateState` from `langgraph-types.ts`: spread the update object over the
state (`lastUpdatedAt` is not modelled). -/
def applyUpdates (s : VrikshaState) (u : StateUpdates) : VrikshaState :=
  { s with
    error := u.error.getD s.error
    plan := u.plan.getD s.plan
    currentStepIndex := u.currentStepIndex.getD s.currentStepIndex
    pendingDiffs := u.pendingDiffs.getD s.pendingDiffs
    appliedPatches := u.appliedPatches.getD s.appliedPatches
    codebase := u.codebase.getD s.codebase
    tokensUsed := u.tokensUsed.getD s.tokensUsed
    isProcessing := u.isProcessing.getD s.isProcessing
    samjhaoMarkdown := (u.samjhaoMarkdown.map some).getD s.samjhaoMarkdown
    deploymentDocs := (u.deploymentDocs.map some).getD s.deploymentDocs }

/-- `NodeExecutionResult` from `langgraph-types.ts`. -/
structure NodeExecutionResult where
  success : Bool
  nextNode : NodeId
  stateUpdates : StateUpdates
  userMessage : Option String := none
  error : Option String := none

/-- The plan step the editing handler would work on in state `s`
(`plan.steps[currentStepIndex]`). -/
def planStepTarget (s : VrikshaState) : Option PlanStep :=
  s.plan.bind (fun p => p.steps.get? s.currentStepIndex)

/-! ### `reflection-agent.ts` -/

/-- Issue severity in a `CodeReviewResult`. -/
inductive Severity
  | error
  | warning
  | info
deriving DecidableEq, Repr

/-- One issue of a `CodeReviewResult`. -/
structure ReviewIssue where
  severity : Severity
  line : Option Nat
  message : String
  suggestion : Option String
deriving DecidableEq, Repr

/-- `CodeReviewResult` from `reflection-agent.ts` (the per-pillar score record
is display-only and omitted). -/
structure CodeReviewResult where
  valid : Bool
  issues : List ReviewIssue
  wellArchitectedScore : Nat
  summary : String
deriving DecidableEq, Repr

/-- Outcomes of the reflection node's external LLM calls: `review` is
`reviewCode` (it throws a string error when every provider's retries are
exhausted or the response is unparseable), `samjhao` and `deployDocs` are the
two documentation generators awaited by `Promise.all`. -/
structure ReflectionEnv where
  review : UnifiedDiff → Except String CodeReviewResult
  samjhao : Except String String
  deployDocs : Except String String

/-- The sequential `for (const diff of pendingDiffs) { await reviewCode(...) }`
loop: first thrown error aborts the whole node body. -/
def collectReviews (review : UnifiedDiff → Except String CodeReviewResult) :
    List UnifiedDiff → Except String (List CodeReviewResult)
  | [] => .ok []
  | d :: ds =>
    match review d with
    | .error e => .error e
    | .ok r =>
      match collectReviews review ds with
      | .error e => .error e
      | .ok rs => .ok (r :: rs)

/-- `getLanguageFromPath` from `reflection-agent.ts`. -/
def getLanguageFromPath (path : String) : String :=
  let ext := ((splitChar '.' path).getLast?).getD ""
  match ext with
  | "ts" => "typescript"
  | "tsx" => "typescript"
  | "js" => "javascript"
  | "tf" => "hcl"
  | "py" => "python"
  | "json" => "json"
  | "yaml" => "yaml"
  | "md" => "markdown"
  | _ => "plaintext"

/-- The per-file `PatchResult` recorded for an applied diff. -/
def appliedResult (d : UnifiedDiff) : PatchResult :=
  ⟨true, d.filePath, none, some true⟩

/-- The per-file `PatchResult` recorded for a diff that failed validation. -/
def failedResult (d : UnifiedDiff) : PatchResult :=
  ⟨false, d.filePath, some "Patch validation failed", some false⟩

/-- The `isValid || diff.originalContent === ''` admission test of
`applyPendingDiffs` (`lib` is the abstract `Diff.applyPatch`, see
`DiffEngine`). -/
def diffAdmitted (lib : String → String → Option String) (d : UnifiedDiff) : Bool :=
  DiffEngine.validatePatch lib d.originalContent d.diff || (d.originalContent == "")

/-- The `CodeFile` written for an applied diff (`now` is `Date.now()`). -/
def patchedFile (now : Nat) (d : UnifiedDiff) : CodeFile :=
  ⟨d.filePath, d.patchedContent, getLanguageFromPath d.filePath, now⟩

/-- Loop body of `applyPendingDiffs`: validate, then either write the patched
file and record a success, or record a per-file failure. -/
def applyDiffStep (lib : String → String → Option String) (now : Nat)
    (acc : (String → Option CodeFile) × List PatchResult) (d : UnifiedDiff) :
    (String → Option CodeFile) × List PatchResult :=
  if diffAdmitted lib d then
    (fun p => if p = d.filePath then some (patchedFile now d) else acc.1 p,
     acc.2 ++ [appliedResult d])
  else
    (acc.1, acc.2 ++ [failedResult d])

/-- `applyPendingDiffs` from `reflection-agent.ts`. -/
def applyPendingDiffs (lib : String → String → Option String) (now : Nat)
    (s : VrikshaState) : CodebaseState × List PatchResult :=
  let acc := s.pendingDiffs.foldl (applyDiffStep lib now) (s.codebase.files, [])
  (⟨acc.1, now⟩, acc.2)

/-- Token accounting of the review loop:
`tokensUsed += estimateTokens(diff.diff) + 500` per diff. -/
def reviewTokens (diffs : List UnifiedDiff) : Nat :=
  diffs.foldl (fun acc d => acc + (estimateTokens d.diff + 500)) 0

/-- The error message assembled from the failed reviews' error-severity
issues. -/
def failedReviewMessage (reviews : List CodeReviewResult) : String :=
  String.intercalate "\n"
    ((((reviews.filter (fun r => !r.valid)).flatMap
        (fun r => r.issues.filter (fun i => i.severity = .error))).map
      (fun i => i.message)))

/-- `Math.round` of the mean Well-Architected score, on integer inputs. -/
def avgScore (reviews : List CodeReviewResult) : Nat :=
  let sum := reviews.foldl (fun acc r => acc + r.wellArchitectedScore) 0
  (2 * sum + reviews.length) / (2 * reviews.length)

/-- `executeReflectionNode` from `reflection-agent.ts`. -/
def executeReflectionNode (env : ReflectionEnv)
    (lib : String → String → Option String) (now : Nat)
    (s : VrikshaState) : NodeExecutionResult :=
  if s.pendingDiffs = [] then
    { success := true, nextNode := .responding, stateUpdates := {},
      userMessage := some "No changes to review." }
  else
    match collectReviews env.review s.pendingDiffs with
    | .error e =>
      { success := false, nextNode := .error,
        stateUpdates := { error := some (some e) }, error := some e }
    | .ok reviews =>
      let tokensUsed := reviewTokens s.pendingDiffs
      if !reviews.all (fun r => r.valid) then
        { success := false, nextNode := .editing,
          stateUpdates :=
            { error := some (some ("Code review failed:\n" ++ failedReviewMessage reviews)),
              tokensUsed := some (s.tokensUsed + tokensUsed) },
          userMessage := some "⚠️ Code review found issues. Retrying edit..." }
      else
        let applied := applyPendingDiffs lib now s
        match env.samjhao with
        | .error e =>
          { success := false, nextNode := .error,
            stateUpdates := { error := some (some e) }, error := some e }
        | .ok samjhaoMarkdown =>
          match env.deployDocs with
          | .error e =>
            { success := false, nextNode := .error,
              stateUpdates := { error := some (some e) }, error := some e }
          | .ok deploymentDocs =>
            let tokensUsed :=
              tokensUsed + estimateTokens samjhaoMarkdown + estimateTokens deploymentDocs
            { success := true, nextNode := .responding,
              stateUpdates :=
                { codebase := some applied.1,
                  appliedPatches := some applied.2,
                  pendingDiffs := some [],
                  samjhaoMarkdown := some samjhaoMarkdown,
                  deploymentDocs := some deploymentDocs,
                  tokensUsed := some (s.tokensUsed + tokensUsed) },
              userMessage := some
                ("✅ Code review passed! Well-Architected Score: " ++
                 toString (avgScore reviews) ++ "/100\n\n" ++
                 toString applied.2.length ++ " file(s) updated successfully.") }

/-! ### `code-editor-agent.ts` -/

/-- Outcomes of the code editor's external LLM calls: `genEdit` is
`generateCodeEdit(filePath, originalContent, planStep, language)` (its result
already contains the generated diff applied to the original), `genNew` is
`generateNewFile(filePath, planStep)`; both throw a string error when retries
are exhausted or the generated diff cannot be applied. -/
structure EditorEnv where
  genEdit : String → String → PlanStep → String → Except String UnifiedDiff
  genNew : String → PlanStep → Except String String

/-- The `UnifiedDiff` the editor builds for a freshly generated file
(`createUnifiedDiff(step.file, '', content)`; the rendered diff text comes
from the external library and is not inspected by any executor, so it is not
reproduced here). -/
def newFileDiff (diffText : String) (file content : String) : UnifiedDiff :=
  ⟨file, "", content, diffText, none, 1, (splitChar '\n' content).length⟩

/-- The `steps.map((s, i) => i === currentStepIndex ? { ...s, completed: true,
diff } : s)` update. -/
def markStepCompleted (steps : List PlanStep) (currentStepIndex : Nat)
    (diff : Option UnifiedDiff) : List PlanStep :=
  steps.mapIdx (fun i st =>
    if i = currentStepIndex then { st with completed := true, diff := diff } else st)

/-- The branch rule at the end of the editing node: `reflection` when no steps
remain, else `retrieval` for a `search` step, else `editing`. -/
def editorNextNode (steps : List PlanStep) (nextStepIndex : Nat) : NodeId :=
  if nextStepIndex < steps.length then
    if (steps.get? nextStepIndex).map (fun st => st.action) = some .search then .retrieval
    else .editing
  else .reflection

/-- `executeCodeEditorNode` from `code-editor-agent.ts` (`diffText` models the
library-rendered diff text for a new file, a value no executor inspects). -/
def executeCodeEditorNode (env : EditorEnv) (diffText : String)
    (s : VrikshaState) : NodeExecutionResult :=
  match s.plan with
  | none =>
    { success := true, nextNode := .reflection, stateUpdates := {} }
  | some plan =>
    match plan.steps.get? s.currentStepIndex with
    | none =>
      { success := true, nextNode := .reflection, stateUpdates := {} }
    | some step =>
      let outcome : Except String (Option UnifiedDiff × Nat) :=
        match step.action with
        | .edit =>
          match s.codebase.files step.file with
          | some file =>
            (env.genEdit step.file file.content step file.language).map
              (fun d => (some d, estimateTokens file.content + estimateTokens d.patchedContent))
          | none =>
            (env.genNew step.file step).map
              (fun content => (some (newFileDiff diffText step.file content),
                               estimateTokens content))
        | .create =>
          (env.genNew step.file step).map
            (fun content => (some (newFileDiff diffText step.file content),
                             estimateTokens content))
        | _ => .ok (none, 0)
      match outcome with
      | .error e =>
        { success := false, nextNode := .error,
          stateUpdates := { error := some (some e) }, error := some e }
      | .ok (diff, tokensUsed) =>
        let updatedPlan := { plan with steps := markStepCompleted plan.steps s.currentStepIndex diff }
        let nextStepIndex := s.currentStepIndex + 1
        { success := true,
          nextNode := editorNextNode plan.steps nextStepIndex,
          stateUpdates :=
            { plan := some (some updatedPlan),
              currentStepIndex := some nextStepIndex,
              pendingDiffs := some (match diff with
                                    | some d => s.pendingDiffs ++ [d]
                                    | none => s.pendingDiffs),
              tokensUsed := some (s.tokensUsed + tokensUsed) },
          userMessage := match diff with
            | some _ => some ("Generated " ++
                (if step.action = .create then "new file" else "edit") ++
                " for `" ++ step.file ++ "`")
            | none => none }

/-! ### `langgraph-orchestrator.ts` -/

/-- The `nodeExecutors` table.  The `idle`, `error`, `ast_parsing`,
`deployment` and `responding` handlers are the orchestrator's own local
functions, embedded directly; `editing` and `reflection` are the embedded
agents above; the `ingestion`, `planning` and `retrieval` handlers call
further external services and are supplied through `others`. -/
def nodeExecutors (others : NodeId → VrikshaState → NodeExecutionResult)
    (renv : ReflectionEnv) (eenv : EditorEnv)
    (lib : String → String → Option String) (now : Nat) (diffText : String) :
    NodeId → VrikshaState → NodeExecutionResult
  | .idle => fun _ =>
    { success := true, nextNode := .idle, stateUpdates := {} }
  | .ast_parsing => fun _ =>
    { success := true, nextNode := .editing, stateUpdates := {} }
  | .editing => executeCodeEditorNode eenv diffText
  | .reflection => executeReflectionNode renv lib now
  | .deployment => fun _ =>
    { success := true, nextNode := .responding, stateUpdates := {},
      userMessage := some "🚀 Deployment ready! Run `terraform apply` to deploy your infrastructure." }
  | .responding => fun _ =>
    { success := true, nextNode := .idle,
      stateUpdates := { isProcessing := some false } }
  | .error => fun s =>
    { success := false, nextNode := .idle, stateUpdates := {}, error := s.error }
  | n => others n

/-- One iteration body of the drive loop: merge the handler's `stateUpdates`
and set `currentNode = result.nextNode`. -/
def mergeResult (s : VrikshaState) (r : NodeExecutionResult) : VrikshaState :=
  { applyUpdates s r.stateUpdates with currentNode := r.nextNode }

/-- `maxIterations` in `run`. -/
def maxIterations : Nat := 20

/-- The `while` loop of `run` (transcript bookkeeping and the cosmetic 100 ms
delay are not modelled; the abort signal is modelled as never set).  Returns
the iteration count together with the state when the loop exits; `fuel` bounds
the recursion and is kept at `maxIterations + 1 - iteration`, so it never runs
out before the `iteration < maxIterations` test fails. -/
def runAux (exec : NodeId → VrikshaState → NodeExecutionResult) :
    Nat → Nat → VrikshaState → Nat × VrikshaState
  | 0, iteration, s => (iteration, s)
  | fuel + 1, iteration, s =>
    if s.currentNode = .idle ∨ s.currentNode = .error ∨ ¬ iteration < maxIterations then
      (iteration, s)
    else
      runAux exec fuel (iteration + 1) (mergeResult s (exec s.currentNode s))

/-- `run` from `langgraph-orchestrator.ts`, parameterized by the executor
table: reset the per-run fields, drive the loop from `ingestion`, and force
the `error` state when the iteration cap was reached. -/
def run (exec : NodeId → VrikshaState → NodeExecutionResult)
    (s0 : VrikshaState) : Nat × VrikshaState :=
  let s := { s0 with currentNode := .ingestion, isProcessing := true, error := none,
                     pendingDiffs := [], appliedPatches := [], currentStepIndex := 0,
                     plan := none }
  let r := runAux exec (maxIterations + 1) 0 s
  if r.1 ≥ maxIterations then
    (r.1, { r.2 with currentNode := .error, error := some "Maximum iterations reached",
                     isProcessing := false })
  else r

end LangGraph

namespace LangGraph

/-- The last pending diff in the list that is admitted by `applyPendingDiffs`
and targets path `p` — the one whose patched content ends up in the codebase
at `p`. -/
def lastAdmittedFor (lib : String → String → Option String) (p : String) :
    List UnifiedDiff → Option UnifiedDiff
  | [] => none
  | d :: ds =>
    match lastAdmittedFor lib p ds with
    | some d' => some d'
    | none => if diffAdmitted lib d && (d.filePath == p) then some d else none

end LangGraph

/-! ## Concrete instances used by the closed theorems below -/

namespace Fixtures

/-- An iteration observation under which capacity is granted immediately. -/
def grantObs : RedisQueue.IterObs := ⟨1, 0, 0, 0⟩

def grantEnv : Nat → RedisQueue.IterObs := fun _ => grantObs

/-- An observation with a saturated request counter (no grant). -/
def busyObs : RedisQueue.IterObs := ⟨1, 30, 0, 30000⟩

def busyEnv : Nat → RedisQueue.IterObs := fun _ => busyObs

/-- A provider-throttling error (`message` contains `429`). -/
def throttleErr : Utils.JsError := ⟨"Request failed with status 429", none⟩

/-- A transient error that is not a throttling signal. -/
def plainErr : Utils.JsError := ⟨"network unreachable", none⟩

/-- An `apiCall` that throttles on the first attempt and then keeps failing
with a transient error. -/
def failingCall : Nat → Except Utils.JsError Nat :=
  fun attempt => .error (if attempt = 1 then throttleErr else plainErr)

/-- An `apiCall` that always succeeds. -/
def okCall : Nat → Except Utils.JsError Nat := fun _ => .ok 7

def emptyCodebase : LangGraph.CodebaseState := ⟨fun _ => none, 0⟩

def samplePlanStep : LangGraph.PlanStep :=
  ⟨"step-1", .edit, "main.tf", none, "add an S3 bucket", none, false, none, none⟩

def samplePlan : LangGraph.ExecutionPlan := ⟨"create infra", [samplePlanStep]⟩

def sampleDiff : LangGraph.UnifiedDiff := ⟨"main.tf", "old", "new", "difftext", none, 1, 1⟩

/-- A pending diff for a file that does not exist yet (`originalContent`
empty). -/
def freshFileDiff : LangGraph.UnifiedDiff := ⟨"fresh.ts", "", "newfile", "d1", none, 1, 1⟩

/-- A pending diff against existing content. -/
def staleFileDiff : LangGraph.UnifiedDiff := ⟨"stale.ts", "orig", "patched", "d2", none, 1, 1⟩

/-- A library behaviour under which every patch application fails. -/
def rejectAllLib : String → String → Option String := fun _ _ => none

/-- A review that reports `valid = false` with one error-severity issue. -/
def invalidReview : LangGraph.CodeReviewResult :=
  ⟨false, [⟨.error, some 1, "hardcoded secret", none⟩], 10, "needs work"⟩

/-- A reflection environment whose reviewer rejects every diff. -/
def rejectingReflectionEnv : LangGraph.ReflectionEnv :=
  ⟨fun _ => .ok invalidReview, .ok "sam", .ok "docs"⟩

/-- An editor environment whose generators always fail (never reached in the
closed theorems below). -/
def stubEditorEnv : LangGraph.EditorEnv :=
  ⟨fun _ _ _ _ => .error "no api", fun _ _ => .error "no api"⟩

/-- A state sitting at the reflection node with one pending diff and a
one-step plan at index 0. -/
def reflectionState : LangGraph.VrikshaState :=
  { currentNode := .reflection, error := none, plan := some samplePlan,
    currentStepIndex := 0, pendingDiffs := [sampleDiff], appliedPatches := [],
    codebase := emptyCodebase, tokensUsed := 0, isProcessing := true,
    samjhaoMarkdown := none, deploymentDocs := none }

/-- A state whose pending diffs exercise both branches of
`applyPendingDiffs`. -/
def applyState : LangGraph.VrikshaState :=
  { reflectionState with pendingDiffs := [freshFileDiff, staleFileDiff] }

/-- Stub executors for the externally-backed nodes. -/
def stubOthers : LangGraph.NodeId → LangGraph.VrikshaState → LangGraph.NodeExecutionResult :=
  fun _ _ => { success := true, nextNode := .idle, stateUpdates := {} }

/-- An executor table in which every handler answers with a non-terminal next
node. -/
def selfFeedingExec : LangGraph.NodeId → LangGraph.VrikshaState → LangGraph.NodeExecutionResult :=
  fun _ _ => { success := true, nextNode := .planning, stateUpdates := {} }

end Fixtures

/-! # Theorems settling the specification's claims -/

/-- C4: for every behaviour of the underlying diff library and all inputs,
`validatePatch(originalContent, patchText)` returns `true` exactly when
`applyPatch(originalContent, patchText)` returns a non-null result — the
dry-run validator and the real application never diverge. -/
theorem validatePatch_agrees_with_applyPatch
    (lib : String → String → Option String) (originalContent patchText : String) :
    DiffEngine.validatePatch lib originalContent patchText = true ↔
      ∃ r, DiffEngine.applyPatch lib originalContent patchText = some r := by
  unfold DiffEngine.validatePatch DiffEngine.applyPatch
  cases lib originalContent patchText <;> simp

/-- C6: `waitForCapacity` returns immediately, issuing no store operations, no
waits and no error, when the shared counter store is unavailable, and likewise
when the provider has no entry in the limits table. -/
theorem waitForCapacity_degrades_to_noop (provider : String) (estimatedTokens : Nat)
    (requestId : String) (env : Nat → RedisQueue.IterObs) :
    RedisQueue.waitForCapacity false provider estimatedTokens requestId env =
      ([], .skippedNoRedis) ∧
    (RedisQueue.PROVIDER_LIMITS provider = none →
      RedisQueue.waitForCapacity true provider estimatedTokens requestId env =
        ([], .skippedNoLimits)) := by
  refine ⟨rfl, fun h => ?_⟩
  unfold RedisQueue.waitForCapacity
  simp [h]

/-- C6 witness: the degraded modes at a concrete unknown provider. -/
theorem waitForCapacity_degrades_to_noop_witness :
    RedisQueue.waitForCapacity false "openai" 100 "r1" Fixtures.grantEnv =
      ([], .skippedNoRedis) ∧
    RedisQueue.waitForCapacity true "openai" 100 "r1" Fixtures.grantEnv =
      ([], .skippedNoLimits) :=
  ⟨(waitForCapacity_degrades_to_noop "openai" 100 "r1" Fixtures.grantEnv).1,
   (waitForCapacity_degrades_to_noop "openai" 100 "r1" Fixtures.grantEnv).2 rfl⟩

/-- C7: on the source text `"function foo() {\n  return 1;\n}\n"` the symbol
extractor returns exactly one symbol, named `foo`, of kind `function`,
spanning lines 1 to 3 — under both the `typescript` and the `javascript`
language ids. -/
theorem extractSymbols_single_function :
    (AstParse.extractSymbols "function foo() \x7b\n  return 1;\n\x7d\n" "typescript").map
        (fun s => (s.name, s.kind, s.startLine, s.endLine)) =
      [("foo", AstParse.SymbolKind.function, 1, 3)] ∧
    (AstParse.extractSymbols "function foo() \x7b\n  return 1;\n\x7d\n" "javascript").map
        (fun s => (s.name, s.kind, s.startLine, s.endLine)) =
      [("foo", AstParse.SymbolKind.function, 1, 3)] :=
  ⟨rfl, rfl⟩

/-! ### Lemmas about `withSmartRetries` -/

/-- Stepping lemma: a failing, non-final attempt contributes its call, a status
notification and a sleep of the computed backoff, then the loop continues with
the next attempt. -/
theorem retryAux_error_step {T : Type} (provider : String)
    (call : Nat → Except Utils.JsError T) (maxRetries a : Nat) (e : Utils.JsError)
    (ha : a < maxRetries) (he : call a = .error e) :
    Utils.retryAux provider call maxRetries a (maxRetries + 1 - a) =
      (.called a :: .status (a + 1) (Utils.backoffMs a e) ::
         .slept (Utils.backoffMs a e) ::
         (Utils.retryAux provider call maxRetries (a + 1) (maxRetries + 1 - (a + 1))).1,
       (Utils.retryAux provider call maxRetries (a + 1) (maxRetries + 1 - (a + 1))).2) := by
  have hfuel : maxRetries + 1 - a = (maxRetries + 1 - (a + 1)) + 1 := by omega
  rw [hfuel]
  have hne : a ≠ maxRetries := by omega
  simp [Utils.retryAux, he, hne]

/-- The final attempt rethrows its own error. -/
theorem retryAux_final_error {T : Type} (provider : String)
    (call : Nat → Except Utils.JsError T) (maxRetries : Nat) (e : Utils.JsError)
    (he : call maxRetries = .error e) :
    Utils.retryAux provider call maxRetries maxRetries 1 = ([.called maxRetries], .attemptError e) := by
  simp [Utils.retryAux, he]

/-- Reachability: when the first `a - 1` attempts all fail, the run's trace is
a prefix followed by the run from attempt `a`, with the same result. -/
theorem retryAux_reach {T : Type} (provider : String)
    (call : Nat → Except Utils.JsError T) (maxRetries : Nat) :
    ∀ a, 1 ≤ a → a ≤ maxRetries →
      (∀ j, 1 ≤ j → j < a → ∃ ej, call j = .error ej) →
      ∃ pre,
        (Utils.retryAux provider call maxRetries 1 maxRetries).1 =
          pre ++ (Utils.retryAux provider call maxRetries a (maxRetries + 1 - a)).1 ∧
        (Utils.retryAux provider call maxRetries 1 maxRetries).2 =
          (Utils.retryAux provider call maxRetries a (maxRetries + 1 - a)).2 := by
  intro a
  induction a with
  | zero => intro h; omega
  | succ n ih =>
    intro _ hle hfail
    by_cases hn : n = 0
    · subst hn
      have h1 : maxRetries + 1 - (0 + 1) = maxRetries := by omega
      exact ⟨[], by rw [h1]; simp, by rw [h1]⟩
    · have hn1 : 1 ≤ n := by omega
      have hnm : n ≤ maxRetries := by omega
      obtain ⟨pre, htr, hres⟩ := ih hn1 hnm (fun j h1 h2 => hfail j h1 (by omega))
      obtain ⟨en, hen⟩ := hfail n hn1 (by omega)
      have hstep := retryAux_error_step provider call maxRetries n en (by omega) hen
      refine ⟨pre ++ [.called n, .status (n + 1) (Utils.backoffMs n en),
                      .slept (Utils.backoffMs n en)], ?_, ?_⟩
      · rw [htr, hstep]; simp
      · rw [hres, hstep]

/-- Each loop iteration records exactly one `apiCall` invocation, so the trace
holds at most `fuel` of them. -/
theorem retryAux_callCount {T : Type} (provider : String)
    (call : Nat → Except Utils.JsError T) (maxRetries : Nat) :
    ∀ fuel a, Utils.callCount (Utils.retryAux provider call maxRetries a fuel).1 ≤ fuel := by
  intro fuel
  induction fuel with
  | zero => intro a; simp [Utils.retryAux, Utils.callCount]
  | succ n ih =>
    intro a
    unfold Utils.retryAux
    cases hc : call a with
    | ok v => simp [Utils.callCount]
    | error e =>
      by_cases hme : a = maxRetries
      · simp [hme, Utils.callCount]
      · simp only [hme, if_false]
        have := ih (a + 1)
        simp [Utils.callCount, List.countP_cons] at this ⊢
        omega

/-- As long as the attempt counter has not passed `maxRetries`, the loop never
falls through to the generic post-loop throw. -/
theorem retryAux_no_fallthrough {T : Type} (provider : String)
    (call : Nat → Except Utils.JsError T) (maxRetries : Nat) :
    ∀ fuel a, a ≤ maxRetries → maxRetries < a + fuel →
      ∀ msg, (Utils.retryAux provider call maxRetries a fuel).2 ≠ .fallthroughError msg := by
  intro fuel
  induction fuel with
  | zero => intro a h1 h2; omega
  | succ n ih =>
    intro a h1 h2 msg
    unfold Utils.retryAux
    cases hc : call a with
    | ok v => simp
    | error e =>
      by_cases hme : a = maxRetries
      · simp [hme]
      · simp only [hme, if_false]
        exact ih (a + 1) (by omega) (by omega) msg

/-- C5: in `withSmartRetries`, when an attempt other than the last fails, the
run's trace shows — right after that attempt's `apiCall` — a status
notification followed by a sleep of 10 seconds when the error signals
provider throttling (message containing `429` or a `status` of 429) and of
`2^attempt` seconds otherwise, after which the loop proceeds to the next
attempt; and when the final attempt fails, its error is what the call
propagates. -/
theorem withSmartRetries_backoff_and_propagation {T : Type} (provider : String)
    (call : Nat → Except Utils.JsError T) (maxRetries : Nat) :
    (∀ a e, 1 ≤ a → a < maxRetries →
       (∀ j, 1 ≤ j → j < a → ∃ ej, call j = .error ej) →
       call a = .error e →
       ∃ pre,
         (Utils.withSmartRetries provider call maxRetries).1 =
           pre ++ .called a ::
             .status (a + 1)
               (if strIncludes e.message "429" || (e.status == some 429)
                then 10000 else 2 ^ a * 1000) ::
             .slept
               (if strIncludes e.message "429" || (e.status == some 429)
                then 10000 else 2 ^ a * 1000) ::
             (Utils.retryAux provider call maxRetries (a + 1) (maxRetries - a)).1 ∧
         (Utils.withSmartRetries provider call maxRetries).2 =
           (Utils.retryAux provider call maxRetries (a + 1) (maxRetries - a)).2) ∧
    (∀ e, 1 ≤ maxRetries →
       (∀ j, 1 ≤ j → j < maxRetries → ∃ ej, call j = .error ej) →
       call maxRetries = .error e →
       (Utils.withSmartRetries provider call maxRetries).2 = .attemptError e) := by
  constructor
  · intro a e h1 hlt hfail he
    obtain ⟨pre, htr, hres⟩ :=
      retryAux_reach provider call maxRetries a h1 (by omega) hfail
    have hstep := retryAux_error_step provider call maxRetries a e hlt he
    have hw : Utils.backoffMs a e =
        (if strIncludes e.message "429" || (e.status == some 429)
         then 10000 else 2 ^ a * 1000) := rfl
    have hsub : maxRetries + 1 - (a + 1) = maxRetries - a := by omega
    refine ⟨pre, ?_, ?_⟩
    · rw [Utils.withSmartRetries, htr, hstep, ← hw, hsub]
    · rw [Utils.withSmartRetries, hres, hstep, hsub]
  · intro e hmr hfail he
    obtain ⟨pre, _, hres⟩ :=
      retryAux_reach provider call maxRetries maxRetries (by omega) le_rfl hfail
    have : maxRetries + 1 - maxRetries = 1 := by omega
    rw [Utils.withSmartRetries, hres, this,
        retryAux_final_error provider call maxRetries e he]

/-- C5 witness: attempt 1 of 3 throttles (a 429 message), producing the status
notification and the fixed 10 s sleep, and the run continues from attempt 2. -/
theorem withSmartRetries_backoff_and_propagation_witness :
    ∃ pre,
      (Utils.withSmartRetries "groq" Fixtures.failingCall 3).1 =
        pre ++ .called 1 :: .status 2 10000 :: .slept 10000 ::
          (Utils.retryAux "groq" Fixtures.failingCall 3 2 2).1 ∧
      (Utils.withSmartRetries "groq" Fixtures.failingCall 3).2 =
        (Utils.retryAux "groq" Fixtures.failingCall 3 2 2).2 := by
  have h :=
    (withSmartRetries_backoff_and_propagation "groq" Fixtures.failingCall 3).1
      1 Fixtures.throttleErr (by decide) (by decide)
      (fun j h1 h2 => absurd h2 (by omega)) rfl
  have hcond : (if strIncludes Fixtures.throttleErr.message "429" ||
        (Fixtures.throttleErr.status == some 429) then 10000 else 2 ^ 1 * 1000) = 10000 := by
    decide
  rw [hcond] at h
  exact h

/-- C10 counterexample: with `maxRetries = 0` the loop body never runs and the
trailing generic `API request to ... failed after ... retries.` error is
thrown, so it is not unreachable for every input. -/
theorem withSmartRetries_fallthrough_reached_at_zero :
    Utils.withSmartRetries "groq" Fixtures.okCall 0 =
      ([], .fallthroughError "API request to groq failed after 0 retries.") := rfl

/-- C10 (amended): whenever `maxRetries ≥ 1` — in particular at the default of
3 — `withSmartRetries` invokes the wrapped `apiCall` at most `maxRetries`
times, the trailing generic post-loop error is unreachable, and when every
attempt throws, the error raised by the final attempt itself is what
propagates to the caller. -/
theorem withSmartRetries_bounded_calls_no_fallthrough {T : Type} (provider : String)
    (call : Nat → Except Utils.JsError T) (maxRetries : Nat) (hmr : 1 ≤ maxRetries) :
    Utils.callCount (Utils.withSmartRetries provider call maxRetries).1 ≤ maxRetries ∧
    (∀ msg, (Utils.withSmartRetries provider call maxRetries).2 ≠ .fallthroughError msg) ∧
    (∀ e, (∀ j, 1 ≤ j → j < maxRetries → ∃ ej, call j = .error ej) →
       call maxRetries = .error e →
       (Utils.withSmartRetries provider call maxRetries).2 = .attemptError e) := by
  refine ⟨retryAux_callCount provider call maxRetries maxRetries 1,
          fun msg => retryAux_no_fallthrough provider call maxRetries maxRetries 1
            hmr (by omega) msg,
          fun e hfail he => ?_⟩
  obtain ⟨pre, _, hres⟩ :=
    retryAux_reach provider call maxRetries maxRetries (by omega) le_rfl hfail
  have h1 : maxRetries + 1 - maxRetries = 1 := by omega
  rw [Utils.withSmartRetries, hres, h1,
      retryAux_final_error provider call maxRetries e he]

/-- C10 witness: the amended guarantees at the default `maxRetries = 3` with a
call that fails on every attempt. -/
theorem withSmartRetries_bounded_calls_no_fallthrough_witness :
    Utils.callCount (Utils.withSmartRetries "groq" Fixtures.failingCall 3).1 ≤ 3 ∧
    (∀ msg, (Utils.withSmartRetries "groq" Fixtures.failingCall 3).2 ≠ .fallthroughError msg) ∧
    (∀ e, (∀ j, 1 ≤ j → j < 3 → ∃ ej, Fixtures.failingCall j = .error ej) →
       Fixtures.failingCall 3 = .error e →
       (Utils.withSmartRetries "groq" Fixtures.failingCall 3).2 = .attemptError e) :=
  withSmartRetries_bounded_calls_no_fallthrough "groq" Fixtures.failingCall 3 (by decide)

/-! ### Lemmas about `waitForCapacity` -/

/-- The boolean grant test is exactly the claimed conjunction. -/
theorem hasCapacity_eq_true_iff (limits : RedisQueue.RateLimits) (est : Nat)
    (obs : RedisQueue.IterObs) :
    RedisQueue.hasCapacity limits est obs = true ↔
      (obs.position = 1 ∧ obs.currentRpm < limits.rpm ∧ obs.currentTpm + est ≤ limits.tpm) := by
  simp [RedisQueue.hasCapacity]
  tauto

theorem hasCapacity_eq_false_iff (limits : RedisQueue.RateLimits) (est : Nat)
    (obs : RedisQueue.IterObs) :
    RedisQueue.hasCapacity limits est obs = false ↔
      ¬(obs.position = 1 ∧ obs.currentRpm < limits.rpm ∧ obs.currentTpm + est ≤ limits.tpm) := by
  rw [← hasCapacity_eq_true_iff limits est obs]
  exact Bool.eq_false_iff.trans (by simp)

/-- The loop grants at iteration `i` exactly when `i` is inside the retry
budget, the grant test passes at `i`, and it failed at every earlier
iteration. -/
theorem waitLoop_granted_iff (limits : RedisQueue.RateLimits) (est : Nat)
    (provider rid : String) (env : Nat → RedisQueue.IterObs) :
    ∀ fuel start i,
      (RedisQueue.waitLoop limits est provider rid env start fuel).2 = .granted i ↔
        (start ≤ i ∧ i < start + fuel ∧
         RedisQueue.hasCapacity limits est (env i) = true ∧
         ∀ j, start ≤ j → j < i → RedisQueue.hasCapacity limits est (env j) = false) := by
  intro fuel
  induction fuel with
  | zero =>
    intro start i
    simp only [RedisQueue.waitLoop]
    constructor
    · intro h; exact absurd h (by simp)
    · intro h; omega
  | succ n ih =>
    intro start i
    by_cases hc : RedisQueue.hasCapacity limits est (env start) = true
    · simp only [RedisQueue.waitLoop, hc, if_true, RedisQueue.WaitOutcome.granted.injEq]
      constructor
      · rintro rfl
        exact ⟨le_rfl, by omega, hc, fun j h1 h2 => by omega⟩
      · rintro ⟨h1, _, h3, h4⟩
        by_contra hne
        have hlt : start < i := by omega
        have := h4 start le_rfl hlt
        rw [this] at hc
        exact Bool.noConfusion hc
    · have hcf : RedisQueue.hasCapacity limits est (env start) = false := by
        revert hc; cases RedisQueue.hasCapacity limits est (env start) <;> simp
      simp only [RedisQueue.waitLoop, hcf, Bool.false_eq_true, if_false]
      rw [ih (start + 1) i]
      constructor
      · rintro ⟨h1, h2, h3, h4⟩
        refine ⟨by omega, by omega, h3, fun j hj1 hj2 => ?_⟩
        rcases Nat.eq_or_lt_of_le hj1 with h | h
        · rw [← h]; exact hcf
        · exact h4 j h hj2
      · rintro ⟨h1, h2, h3, h4⟩
        have hne : i ≠ start := by
          intro h
          rw [h] at h3
          rw [h3] at hcf
          exact Bool.noConfusion hcf
        exact ⟨by omega, by omega, h3, fun j hj1 hj2 => h4 j (by omega) hj2⟩

/-- The loop proceeds past the cap exactly when the grant test failed at every
iteration of the budget. -/
theorem waitLoop_cap_iff (limits : RedisQueue.RateLimits) (est : Nat)
    (provider rid : String) (env : Nat → RedisQueue.IterObs) :
    ∀ fuel start,
      (RedisQueue.waitLoop limits est provider rid env start fuel).2 = .proceededAfterCap ↔
        ∀ j, start ≤ j → j < start + fuel →
          RedisQueue.hasCapacity limits est (env j) = false := by
  intro fuel
  induction fuel with
  | zero =>
    intro start
    simp only [RedisQueue.waitLoop]
    constructor
    · intro _ j h1 h2; omega
    · intro _; trivial
  | succ n ih =>
    intro start
    by_cases hc : RedisQueue.hasCapacity limits est (env start) = true
    · simp only [RedisQueue.waitLoop, hc, if_true]
      constructor
      · intro h; exact absurd h (by simp)
      · intro h
        have := h start le_rfl (by omega)
        rw [this] at hc
        exact Bool.noConfusion hc
    · have hcf : RedisQueue.hasCapacity limits est (env start) = false := by
        revert hc; cases RedisQueue.hasCapacity limits est (env start) <;> simp
      simp only [RedisQueue.waitLoop, hcf, Bool.false_eq_true, if_false]
      rw [ih (start + 1)]
      constructor
      · intro h j hj1 hj2
        rcases Nat.eq_or_lt_of_le hj1 with he | hlt
        · rw [← he]; exact hcf
        · exact h j hlt (by omega)
      · intro h j hj1 hj2
        exact h j (by omega) (by omega)

/-- When every iteration before `i` fails the grant test and `i` is inside the
budget, the loop's trace contains iteration `i`'s reads followed by its claim
batch (on a grant) or its requeue/notify/sleep sequence (otherwise). -/
theorem waitLoop_reach (limits : RedisQueue.RateLimits) (est : Nat)
    (provider rid : String) (env : Nat → RedisQueue.IterObs) :
    ∀ fuel start i, start ≤ i → i < start + fuel →
      (∀ j, start ≤ j → j < i → RedisQueue.hasCapacity limits est (env j) = false) →
      ∃ pre post,
        (RedisQueue.waitLoop limits est provider rid env start fuel).1 =
          pre ++ RedisQueue.iterReadOps provider rid (env i) ++
            (if RedisQueue.hasCapacity limits est (env i)
             then RedisQueue.claimOps provider rid est (env i)
             else RedisQueue.requeueOps provider rid (env i) ++ post) := by
  intro fuel
  induction fuel with
  | zero => intro start i h1 h2; omega
  | succ n ih =>
    intro start i h1 h2 h3
    by_cases hi : i = start
    · subst hi
      by_cases hc : RedisQueue.hasCapacity limits est (env i) = true
      · exact ⟨[], [], by simp only [RedisQueue.waitLoop, hc, if_true]; simp⟩
      · have hcf : RedisQueue.hasCapacity limits est (env i) = false := by
          revert hc; cases RedisQueue.hasCapacity limits est (env i) <;> simp
        refine ⟨[], (RedisQueue.waitLoop limits est provider rid env (i + 1) n).1, ?_⟩
        simp only [RedisQueue.waitLoop, hcf, Bool.false_eq_true, if_false]
        simp [List.append_assoc]
    · have hst : RedisQueue.hasCapacity limits est (env start) = false :=
        h3 start le_rfl (by omega)
      obtain ⟨pre, post, hp⟩ :=
        ih (start + 1) i (by omega) (by omega) (fun j hj1 hj2 => h3 j (by omega) hj2)
      refine ⟨RedisQueue.iterReadOps provider rid (env start) ++
              RedisQueue.requeueOps provider rid (env start) ++ pre, post, ?_⟩
      simp only [RedisQueue.waitLoop, hst, Bool.false_eq_true, if_false]
      rw [hp]
      simp [List.append_assoc]

/-- C2: one run of `waitForCapacity` (store available, provider known):
capacity is claimed at iteration `i` — the function returning `granted i`,
with the counter increments and the dequeue in its trace — if and only if that
iteration is within the 10-iteration budget, its waitlist position is 1, the
epoch's request count is below the provider's `rpm` and its token count plus
`estimatedTokens` fits under `tpm`, every earlier iteration having failed that
test; any iteration whose test fails reports `(position, delay to the next
minute boundary plus 100 ms)` to the status callback and sleeps that delay;
and the run proceeds unconditionally (`proceededAfterCap`) exactly when all 10
iterations fail the test. -/
theorem waitForCapacity_admission (provider : String) (limits : RedisQueue.RateLimits)
    (est : Nat) (rid : String) (env : Nat → RedisQueue.IterObs)
    (hlim : RedisQueue.PROVIDER_LIMITS provider = some limits) :
    (∀ i, (RedisQueue.waitForCapacity true provider est rid env).2 = .granted i ↔
        (i < 10 ∧
         ((env i).position = 1 ∧ (env i).currentRpm < limits.rpm ∧
          (env i).currentTpm + est ≤ limits.tpm) ∧
         ∀ j, j < i →
           ¬((env j).position = 1 ∧ (env j).currentRpm < limits.rpm ∧
             (env j).currentTpm + est ≤ limits.tpm))) ∧
    (∀ i, (RedisQueue.waitForCapacity true provider est rid env).2 = .granted i →
        ∀ op ∈ RedisQueue.claimOps provider rid est (env i),
          op ∈ (RedisQueue.waitForCapacity true provider est rid env).1) ∧
    (∀ i, i < 10 →
        (∀ j, j ≤ i →
          ¬((env j).position = 1 ∧ (env j).currentRpm < limits.rpm ∧
            (env j).currentTpm + est ≤ limits.tpm)) →
        RedisQueue.RedisOp.notify (env i).position (60000 - (env i).nowMs % 60000 + 100) ∈
          (RedisQueue.waitForCapacity true provider est rid env).1 ∧
        RedisQueue.RedisOp.sleep (60000 - (env i).nowMs % 60000 + 100) ∈
          (RedisQueue.waitForCapacity true provider est rid env).1) ∧
    ((RedisQueue.waitForCapacity true provider est rid env).2 = .proceededAfterCap ↔
      ∀ j, j < 10 →
        ¬((env j).position = 1 ∧ (env j).currentRpm < limits.rpm ∧
          (env j).currentTpm + est ≤ limits.tpm)) := by
  have hw : RedisQueue.waitForCapacity true provider est rid env =
      RedisQueue.waitLoop limits est provider rid env 0 10 := by
    simp [RedisQueue.waitForCapacity, hlim, RedisQueue.MAX_WAITS]
  rw [hw]
  refine ⟨fun i => ?_, fun i hgr op hop => ?_, fun i hi hall => ?_, ?_⟩
  · rw [waitLoop_granted_iff]
    constructor
    · rintro ⟨_, h2, h3, h4⟩
      exact ⟨by omega, (hasCapacity_eq_true_iff limits est (env i)).mp h3,
             fun j hj => (hasCapacity_eq_false_iff limits est (env j)).mp
               (h4 j (by omega) hj)⟩
    · rintro ⟨h1, h2, h3⟩
      exact ⟨by omega, by omega, (hasCapacity_eq_true_iff limits est (env i)).mpr h2,
             fun j _ hj => (hasCapacity_eq_false_iff limits est (env j)).mpr (h3 j hj)⟩
  · obtain ⟨_, _, h3, h4⟩ := (waitLoop_granted_iff limits est provider rid env 10 0 i).mp hgr
    obtain ⟨pre, post, hp⟩ :=
      waitLoop_reach limits est provider rid env 10 0 i (by omega) (by omega) h4
    rw [hp]
    simp only [h3, if_true]
    simp [hop]
  · have hci : RedisQueue.hasCapacity limits est (env i) = false :=
      (hasCapacity_eq_false_iff limits est (env i)).mpr (hall i le_rfl)
    obtain ⟨pre, post, hp⟩ :=
      waitLoop_reach limits est provider rid env 10 0 i (by omega) (by omega)
        (fun j _ hj => (hasCapacity_eq_false_iff limits est (env j)).mpr
          (hall j (by omega)))
    rw [hp]
    simp only [hci, Bool.false_eq_true, if_false]
    constructor <;> simp [RedisQueue.requeueOps, RedisQueue.waitDelayMs]
  · rw [waitLoop_cap_iff]
    constructor
    · intro h j hj
      exact (hasCapacity_eq_false_iff limits est (env j)).mp (h j (by omega) (by omega))
    · intro h j _ hj
      exact (hasCapacity_eq_false_iff limits est (env j)).mpr (h j (by omega))

/-- C2 witness: with a free window and waitlist position 1, the very first
iteration claims capacity. -/
theorem waitForCapacity_admission_witness :
    (RedisQueue.waitForCapacity true "groq" 100 "r1" Fixtures.grantEnv).2 =
      .granted 0 :=
  ((waitForCapacity_admission "groq" ⟨30, 6000⟩ 100 "r1" Fixtures.grantEnv rfl).1 0).mpr
    ⟨by decide, by decide, fun j hj => absurd hj (by omega)⟩

/-! ### Lemmas about `applyPendingDiffs` -/

/-- The results list accumulated by the loop: one record per diff, success
exactly when the diff is admitted. -/
theorem applyDiffStep_foldl_results (lib : String → String → Option String) (now : Nat) :
    ∀ (l : List LangGraph.UnifiedDiff) (f0 : String → Option LangGraph.CodeFile)
      (r0 : List LangGraph.PatchResult),
      (l.foldl (LangGraph.applyDiffStep lib now) (f0, r0)).2 =
        r0 ++ l.map (fun d =>
          if LangGraph.diffAdmitted lib d then LangGraph.appliedResult d
          else LangGraph.failedResult d) := by
  intro l
  induction l with
  | nil => intro f0 r0; simp
  | cons d ds ih =>
    intro f0 r0
    by_cases hd : LangGraph.diffAdmitted lib d = true
    · simp only [List.foldl_cons, LangGraph.applyDiffStep, hd, if_true, List.map_cons]
      rw [ih]
      simp
    · have hdf : LangGraph.diffAdmitted lib d = false := by
        revert hd; cases LangGraph.diffAdmitted lib d <;> simp
      simp only [List.foldl_cons, LangGraph.applyDiffStep, hdf, Bool.false_eq_true, if_false,
                 List.map_cons]
      rw [ih]
      simp

/-- The codebase accumulated by the loop, looked up at a path: the patched
file of the last admitted diff for that path, else the original entry. -/
theorem applyDiffStep_foldl_files (lib : String → String → Option String) (now : Nat) :
    ∀ (l : List LangGraph.UnifiedDiff) (f0 : String → Option LangGraph.CodeFile)
      (r0 : List LangGraph.PatchResult) (p : String),
      (l.foldl (LangGraph.applyDiffStep lib now) (f0, r0)).1 p =
        (match LangGraph.lastAdmittedFor lib p l with
         | some d => some (LangGraph.patchedFile now d)
         | none => f0 p) := by
  intro l
  induction l with
  | nil => intro f0 r0 p; simp [LangGraph.lastAdmittedFor]
  | cons d ds ih =>
    intro f0 r0 p
    rw [List.foldl_cons, ih]
    cases h : LangGraph.lastAdmittedFor lib p ds with
    | some d' => simp [LangGraph.lastAdmittedFor, h]
    | none =>
      simp only [LangGraph.lastAdmittedFor, h]
      by_cases hd : LangGraph.diffAdmitted lib d = true
      · by_cases hp : p = d.filePath
        · simp [LangGraph.applyDiffStep, hd, hp]
        · have hbeq : (d.filePath == p) = false := by
            simp [hp]; intro hfp; exact hp hfp.symm
          simp [LangGraph.applyDiffStep, hd, hbeq, hp]
      · have hdf : LangGraph.diffAdmitted lib d = false := by
          revert hd; cases LangGraph.diffAdmitted lib d <;> simp
        simp [LangGraph.applyDiffStep, hdf]

/-- If no element of the list is an admitted diff for `p`, the lookup misses. -/
theorem lastAdmittedFor_eq_none (lib : String → String → Option String) (p : String) :
    ∀ l : List LangGraph.UnifiedDiff,
      (∀ d ∈ l, (LangGraph.diffAdmitted lib d && (d.filePath == p)) = false) →
      LangGraph.lastAdmittedFor lib p l = none := by
  intro l
  induction l with
  | nil => intro _; rfl
  | cons d ds ih =>
    intro h
    have hds := ih (fun d' hd' => h d' (List.mem_cons_of_mem d hd'))
    simp only [LangGraph.lastAdmittedFor, hds]
    simp [h d (List.mem_cons_self d ds)]

/-- If the diff at index `i` is admitted for `p` and no later diff for the
same path is admitted, it is the last admitted diff for `p`. -/
theorem lastAdmittedFor_of_get (lib : String → String → Option String) (p : String) :
    ∀ (l : List LangGraph.UnifiedDiff) (i : Nat) (d : LangGraph.UnifiedDiff),
      l.get? i = some d → LangGraph.diffAdmitted lib d = true → d.filePath = p →
      (∀ j d', i < j → l.get? j = some d' → d'.filePath = p →
        LangGraph.diffAdmitted lib d' = false) →
      LangGraph.lastAdmittedFor lib p l = some d := by
  intro l
  induction l with
  | nil => intro i d hget; simp at hget
  | cons x xs ih =>
    intro i d hget hadm hpath hlater
    cases i with
    | zero =>
      have hx : x = d := by simpa using hget
      subst hx
      have hnone : LangGraph.lastAdmittedFor lib p xs = none := by
        apply lastAdmittedFor_eq_none
        intro d' hd'
        obtain ⟨k, hk⟩ := List.mem_iff_get?.mp hd'
        by_cases hp' : d'.filePath = p
        · have := hlater (k + 1) d' (Nat.succ_pos k) (by simpa using hk) hp'
          simp [this]
        · simp [hp']
      simp [LangGraph.lastAdmittedFor, hnone, hadm, hpath]
    | succ k =>
      have hget' : xs.get? k = some d := by simpa using hget
      have hxs := ih k d hget' hadm hpath
        (fun j d' hj hje hp' => hlater (j + 1) d' (by omega) (by simpa using hje) hp')
      simp [LangGraph.lastAdmittedFor, hxs]

/-- C9: `applyPendingDiffs` records one `PatchResult` per pending diff — a
success for every diff that passes validation *or* has empty
`originalContent` (the new-file case needs no context check), and a per-file
`success = false` / `error = "Patch validation failed"` record otherwise,
failures never blocking the rest of the batch — and the patched content of an
applied diff (not overridden by a later applied diff for the same path) is
written to the codebase under its path. -/
theorem applyPendingDiffs_per_file (lib : String → String → Option String) (now : Nat)
    (s : LangGraph.VrikshaState) :
    (LangGraph.applyPendingDiffs lib now s).2 =
      s.pendingDiffs.map (fun d =>
        if DiffEngine.validatePatch lib d.originalContent d.diff || (d.originalContent == "")
        then ⟨true, d.filePath, none, some true⟩
        else ⟨false, d.filePath, some "Patch validation failed", some false⟩) ∧
    (∀ i d, s.pendingDiffs.get? i = some d →
       LangGraph.diffAdmitted lib d = true →
       (∀ j d', i < j → s.pendingDiffs.get? j = some d' →
          d'.filePath = d.filePath → LangGraph.diffAdmitted lib d' = false) →
       (LangGraph.applyPendingDiffs lib now s).1.files d.filePath =
         some ⟨d.filePath, d.patchedContent, LangGraph.getLanguageFromPath d.filePath, now⟩) := by
  constructor
  · rw [show (LangGraph.applyPendingDiffs lib now s).2 =
        (s.pendingDiffs.foldl (LangGraph.applyDiffStep lib now) (s.codebase.files, [])).2
      from rfl]
    rw [applyDiffStep_foldl_results]
    simp [LangGraph.diffAdmitted, LangGraph.appliedResult, LangGraph.failedResult]
  · intro i d hget hadm hlater
    have hfiles : (LangGraph.applyPendingDiffs lib now s).1.files =
        (s.pendingDiffs.foldl (LangGraph.applyDiffStep lib now) (s.codebase.files, [])).1 :=
      rfl
    rw [hfiles, applyDiffStep_foldl_files,
        lastAdmittedFor_of_get lib d.filePath s.pendingDiffs i d hget hadm rfl hlater]
    rfl

/-- C9 witness: a fresh-file diff (empty original) is applied even though the
library rejects every patch, while the diff against existing content is
recorded as a per-file validation failure without stopping the batch. -/
theorem applyPendingDiffs_per_file_witness :
    (LangGraph.applyPendingDiffs Fixtures.rejectAllLib 5 Fixtures.applyState).2 =
      [⟨true, "fresh.ts", none, some true⟩,
       ⟨false, "stale.ts", some "Patch validation failed", some false⟩] ∧
    (LangGraph.applyPendingDiffs Fixtures.rejectAllLib 5 Fixtures.applyState).1.files
        "fresh.ts" = some ⟨"fresh.ts", "newfile", "typescript", 5⟩ := by
  have h := applyPendingDiffs_per_file Fixtures.rejectAllLib 5 Fixtures.applyState
  constructor
  · rw [h.1]; rfl
  · have h2 := h.2 0 Fixtures.freshFileDiff rfl (by decide) ?_
    · exact h2
    · intro j d' hj hget hp
      have hlen : Fixtures.applyState.pendingDiffs.length = 2 := rfl
      have hlt : j < 2 := by
        by_contra hge
        have hnone : Fixtures.applyState.pendingDiffs.get? j = none :=
          List.get?_eq_none.mpr (by rw [hlen]; omega)
        rw [hnone] at hget
        exact Option.noConfusion hget
      have hj1 : j = 1 := by omega
      subst hj1
      have : d' = Fixtures.staleFileDiff := by
        have hx : Fixtures.applyState.pendingDiffs.get? 1 = some Fixtures.staleFileDiff := rfl
        rw [hx] at hget
        exact (Option.some.inj hget).symm
      subst this
      exact absurd hp (by decide)

/-! ### Reflection routing on a failed review -/

/-- C1: when the reflection node's reviews come back with at least one
`valid = false`, the dispatched handler answers `nextNode = editing` without
touching `currentStepIndex`; merging that result (one iteration of the drive
loop) leaves the orchestrator at `editing` with the same step index and plan,
so the next iteration dispatches the editing handler, whose target is the very
plan step that produced the failed diff. -/
theorem reflection_failed_review_reroutes_to_editing
    (others : LangGraph.NodeId → LangGraph.VrikshaState → LangGraph.NodeExecutionResult)
    (renv : LangGraph.ReflectionEnv) (eenv : LangGraph.EditorEnv)
    (lib : String → String → Option String) (now : Nat) (diffText : String)
    (s : LangGraph.VrikshaState) (reviews : List LangGraph.CodeReviewResult)
    (hnode : s.currentNode = .reflection)
    (hrev : LangGraph.collectReviews renv.review s.pendingDiffs = .ok reviews)
    (hfail : ∃ r ∈ reviews, r.valid = false) :
    (LangGraph.nodeExecutors others renv eenv lib now diffText s.currentNode s).nextNode =
      .editing ∧
    (LangGraph.nodeExecutors others renv eenv lib now diffText
        s.currentNode s).stateUpdates.currentStepIndex = none ∧
    (LangGraph.mergeResult s
        (LangGraph.nodeExecutors others renv eenv lib now diffText s.currentNode s)).currentNode =
      .editing ∧
    (LangGraph.mergeResult s
        (LangGraph.nodeExecutors others renv eenv lib now diffText
          s.currentNode s)).currentStepIndex = s.currentStepIndex ∧
    (LangGraph.mergeResult s
        (LangGraph.nodeExecutors others renv eenv lib now diffText s.currentNode s)).plan =
      s.plan ∧
    (∀ t, LangGraph.nodeExecutors others renv eenv lib now diffText
        (LangGraph.mergeResult s
          (LangGraph.nodeExecutors others renv eenv lib now diffText
            s.currentNode s)).currentNode t =
      LangGraph.executeCodeEditorNode eenv diffText t) ∧
    LangGraph.planStepTarget
        (LangGraph.mergeResult s
          (LangGraph.nodeExecutors others renv eenv lib now diffText s.currentNode s)) =
      LangGraph.planStepTarget s := by
  have hne : ¬ s.pendingDiffs = [] := by
    intro h
    rw [h] at hrev
    have hrev' : reviews = [] := by
      simpa [LangGraph.collectReviews] using hrev.symm
    obtain ⟨r, hr, _⟩ := hfail
    rw [hrev'] at hr
    simp at hr
  have hall : (reviews.all fun r => r.valid) = false := by
    obtain ⟨r, hr, hv⟩ := hfail
    rw [List.all_eq_false]
    exact ⟨r, hr, by simp [hv]⟩
  have hdisp : LangGraph.nodeExecutors others renv eenv lib now diffText s.currentNode s =
      LangGraph.executeReflectionNode renv lib now s := by rw [hnode]; rfl
  have hres : LangGraph.executeReflectionNode renv lib now s =
      { success := false, nextNode := .editing,
        stateUpdates :=
          { error := some (some ("Code review failed:\n" ++
              LangGraph.failedReviewMessage reviews)),
            tokensUsed := some (s.tokensUsed + LangGraph.reviewTokens s.pendingDiffs) },
        userMessage := some "⚠️ Code review found issues. Retrying edit..." } := by
    unfold LangGraph.executeReflectionNode
    rw [if_neg hne, hrev]
    simp [hall]
  rw [hdisp, hres]
  refine ⟨rfl, rfl, rfl, rfl, rfl, fun t => rfl, rfl⟩

/-- C1 witness: a one-diff reflection state whose reviewer rejects the diff is
rerouted to the editing handler at the same single-step plan position. -/
theorem reflection_failed_review_reroutes_to_editing_witness :
    (LangGraph.nodeExecutors Fixtures.stubOthers Fixtures.rejectingReflectionEnv
        Fixtures.stubEditorEnv Fixtures.rejectAllLib 0 "dt"
        Fixtures.reflectionState.currentNode Fixtures.reflectionState).nextNode = .editing ∧
    (LangGraph.nodeExecutors Fixtures.stubOthers Fixtures.rejectingReflectionEnv
        Fixtures.stubEditorEnv Fixtures.rejectAllLib 0 "dt"
        Fixtures.reflectionState.currentNode
        Fixtures.reflectionState).stateUpdates.currentStepIndex = none ∧
    (LangGraph.mergeResult Fixtures.reflectionState
        (LangGraph.nodeExecutors Fixtures.stubOthers Fixtures.rejectingReflectionEnv
          Fixtures.stubEditorEnv Fixtures.rejectAllLib 0 "dt"
          Fixtures.reflectionState.currentNode Fixtures.reflectionState)).currentNode =
      .editing ∧
    (LangGraph.mergeResult Fixtures.reflectionState
        (LangGraph.nodeExecutors Fixtures.stubOthers Fixtures.rejectingReflectionEnv
          Fixtures.stubEditorEnv Fixtures.rejectAllLib 0 "dt"
          Fixtures.reflectionState.currentNode
          Fixtures.reflectionState)).currentStepIndex =
      Fixtures.reflectionState.currentStepIndex ∧
    (LangGraph.mergeResult Fixtures.reflectionState
        (LangGraph.nodeExecutors Fixtures.stubOthers Fixtures.rejectingReflectionEnv
          Fixtures.stubEditorEnv Fixtures.rejectAllLib 0 "dt"
          Fixtures.reflectionState.currentNode Fixtures.reflectionState)).plan =
      Fixtures.reflectionState.plan ∧
    (∀ t, LangGraph.nodeExecutors Fixtures.stubOthers Fixtures.rejectingReflectionEnv
        Fixtures.stubEditorEnv Fixtures.rejectAllLib 0 "dt"
        (LangGraph.mergeResult Fixtures.reflectionState
          (LangGraph.nodeExecutors Fixtures.stubOthers Fixtures.rejectingReflectionEnv
            Fixtures.stubEditorEnv Fixtures.rejectAllLib 0 "dt"
            Fixtures.reflectionState.currentNode Fixtures.reflectionState)).currentNode t =
      LangGraph.executeCodeEditorNode Fixtures.stubEditorEnv "dt" t) ∧
    LangGraph.planStepTarget
        (LangGraph.mergeResult Fixtures.reflectionState
          (LangGraph.nodeExecutors Fixtures.stubOthers Fixtures.rejectingReflectionEnv
            Fixtures.stubEditorEnv Fixtures.rejectAllLib 0 "dt"
            Fixtures.reflectionState.currentNode Fixtures.reflectionState)) =
      LangGraph.planStepTarget Fixtures.reflectionState :=
  reflection_failed_review_reroutes_to_editing Fixtures.stubOthers
    Fixtures.rejectingReflectionEnv Fixtures.stubEditorEnv Fixtures.rejectAllLib 0 "dt"
    Fixtures.reflectionState [Fixtures.invalidReview] rfl rfl
    ⟨Fixtures.invalidReview, List.mem_singleton.mpr rfl, rfl⟩

/-! ### The orchestrator's iteration cap -/

/-- If every executor answers with a non-terminal node, the drive loop runs
until the iteration counter reaches the cap. -/
theorem runAux_saturates (exec : LangGraph.NodeId → LangGraph.VrikshaState →
      LangGraph.NodeExecutionResult)
    (h : ∀ n s, (exec n s).nextNode ≠ LangGraph.NodeId.idle ∧
                (exec n s).nextNode ≠ LangGraph.NodeId.error) :
    ∀ fuel iteration s, iteration + fuel = LangGraph.maxIterations + 1 →
      iteration ≤ LangGraph.maxIterations →
      s.currentNode ≠ LangGraph.NodeId.idle → s.currentNode ≠ LangGraph.NodeId.error →
      (LangGraph.runAux exec fuel iteration s).1 = LangGraph.maxIterations := by
  intro fuel
  induction fuel with
  | zero => intro it s h1 h2 h3 h4; omega
  | succ n ih =>
    intro it s h1 h2 h3 h4
    unfold LangGraph.runAux
    by_cases hit : it < LangGraph.maxIterations
    · have hcond : ¬(s.currentNode = LangGraph.NodeId.idle ∨
          s.currentNode = LangGraph.NodeId.error ∨ ¬ it < LangGraph.maxIterations) := by
        rintro (hc | hc | hc)
        · exact h3 hc
        · exact h4 hc
        · exact hc hit
      rw [if_neg hcond]
      exact ih (it + 1) (LangGraph.mergeResult s (exec s.currentNode s)) (by omega) (by omega)
        ((h s.currentNode s).1) ((h s.currentNode s).2)
    · rw [if_pos (Or.inr (Or.inr hit))]
      omega

/-- C8: if every node executor always answers a non-terminal `nextNode`, the
drive loop performs at most 20 handler invocations and the run then forces
`currentNode = error` with the message `Maximum iterations reached` — it never
runs indefinitely. -/
theorem orchestrator_iteration_cap
    (exec : LangGraph.NodeId → LangGraph.VrikshaState → LangGraph.NodeExecutionResult)
    (s0 : LangGraph.VrikshaState)
    (h : ∀ n s, (exec n s).nextNode ≠ LangGraph.NodeId.idle ∧
                (exec n s).nextNode ≠ LangGraph.NodeId.error) :
    (LangGraph.run exec s0).1 ≤ 20 ∧
    (LangGraph.run exec s0).2.currentNode = LangGraph.NodeId.error ∧
    (LangGraph.run exec s0).2.error = some "Maximum iterations reached" := by
  have hiter := runAux_saturates exec h (LangGraph.maxIterations + 1) 0
    { s0 with currentNode := LangGraph.NodeId.ingestion, isProcessing := true, error := none,
              pendingDiffs := [], appliedPatches := [], currentStepIndex := 0, plan := none }
    (by omega) (by omega) (by simp) (by simp)
  simp only [LangGraph.run]
  rw [hiter, if_pos (le_refl LangGraph.maxIterations)]
  refine ⟨by simp [LangGraph.maxIterations], rfl, rfl⟩

/-- C8 witness: an executor table that always moves to `planning` (never a
terminal node) ends in the forced `error` state within the cap. -/
theorem orchestrator_iteration_cap_witness :
    (LangGraph.run Fixtures.selfFeedingExec Fixtures.reflectionState).1 ≤ 20 ∧
    (LangGraph.run Fixtures.selfFeedingExec
        Fixtures.reflectionState).2.currentNode = LangGraph.NodeId.error ∧
    (LangGraph.run Fixtures.selfFeedingExec Fixtures.reflectionState).2.error =
      some "Maximum iterations reached" :=
  orchestrator_iteration_cap Fixtures.selfFeedingExec Fixtures.reflectionState
    (fun n s => ⟨by simp [Fixtures.selfFeedingExec], by simp [Fixtures.selfFeedingExec]⟩)

/-! ### Lemmas for the diff round-trip -/

theorem commonStart_prefix_left (a : List String) :
    ∀ b, SpecDiff.commonStart a b <+: a := by
  induction a with
  | nil => intro b; simp [SpecDiff.commonStart]
  | cons x xs ih =>
    intro b
    cases b with
    | nil => simp [SpecDiff.commonStart]
    | cons y ys =>
      simp only [SpecDiff.commonStart]
      by_cases h : x = y
      · rw [if_pos h]
        exact List.cons_prefix_cons.mpr ⟨rfl, ih ys⟩
      · rw [if_neg h]
        exact List.nil_prefix

theorem commonStart_prefix_right (a : List String) :
    ∀ b, SpecDiff.commonStart a b <+: b := by
  induction a with
  | nil => intro b; simp [SpecDiff.commonStart]
  | cons x xs ih =>
    intro b
    cases b with
    | nil => simp [SpecDiff.commonStart]
    | cons y ys =>
      simp only [SpecDiff.commonStart]
      by_cases h : x = y
      · rw [if_pos h]
        exact List.cons_prefix_cons.mpr ⟨h, ih ys⟩
      · rw [if_neg h]
        exact List.nil_prefix

theorem commonEnd_suffix_left (a b : List String) : SpecDiff.commonEnd a b <:+ a := by
  have h := commonStart_prefix_left a.reverse b.reverse
  rw [SpecDiff.commonEnd]
  exact List.reverse_prefix.mp (by simpa using h)

theorem commonEnd_suffix_right (a b : List String) : SpecDiff.commonEnd a b <:+ b := by
  have h := commonStart_prefix_right a.reverse b.reverse
  rw [SpecDiff.commonEnd]
  exact List.reverse_prefix.mp (by simpa using h)

/-- A list splits as its `dropEnd` part followed by any of its suffixes of the
complementary length. -/
theorem dropEnd_append_of_suffix (s l : List String) (h : s <:+ l) :
    SpecDiff.dropEnd s.length l ++ s = l := by
  obtain ⟨u, hu⟩ := h
  have hlen : l.length - s.length = u.length := by
    rw [← hu]; simp
  rw [SpecDiff.dropEnd, hlen, ← hu, List.take_left]

theorem applyBody_ctx_chunk (xs : List String) :
    ∀ (ls : List SpecDiff.PatchLine) (rest : List String),
      SpecDiff.applyBody (xs.map .ctx ++ ls) (xs ++ rest) =
        (SpecDiff.applyBody ls rest).map (fun r => (xs ++ r.1, r.2 + xs.length)) := by
  induction xs with
  | nil =>
    intro ls rest
    cases h : SpecDiff.applyBody ls rest <;> simp [h]
  | cons x xs ih =>
    intro ls rest
    simp only [List.map_cons, List.cons_append]
    rw [show SpecDiff.applyBody (.ctx x :: (xs.map .ctx ++ ls)) (x :: (xs ++ rest)) =
          if x = x then
            (SpecDiff.applyBody (xs.map .ctx ++ ls) (xs ++ rest)).map
              (fun r => (x :: r.1, r.2 + 1))
          else none
        from rfl]
    rw [if_pos rfl, ih]
    cases h : SpecDiff.applyBody ls rest <;>
      simp [h, List.cons_append, Nat.add_assoc, Nat.add_comm 1 xs.length]

theorem applyBody_del_chunk (xs : List String) :
    ∀ (ls : List SpecDiff.PatchLine) (rest : List String),
      SpecDiff.applyBody (xs.map .del ++ ls) (xs ++ rest) =
        (SpecDiff.applyBody ls rest).map (fun r => (r.1, r.2 + xs.length)) := by
  induction xs with
  | nil =>
    intro ls rest
    cases h : SpecDiff.applyBody ls rest <;> simp [h]
  | cons x xs ih =>
    intro ls rest
    simp only [List.map_cons, List.cons_append]
    rw [show SpecDiff.applyBody (.del x :: (xs.map .del ++ ls)) (x :: (xs ++ rest)) =
          if x = x then
            (SpecDiff.applyBody (xs.map .del ++ ls) (xs ++ rest)).map
              (fun r => (r.1, r.2 + 1))
          else none
        from rfl]
    rw [if_pos rfl, ih]
    cases h : SpecDiff.applyBody ls rest <;>
      simp [h, Nat.add_assoc, Nat.add_comm 1 xs.length]

theorem applyBody_ins_chunk (xs : List String) :
    ∀ (ls : List SpecDiff.PatchLine) (rest : List String),
      SpecDiff.applyBody (xs.map .ins ++ ls) rest =
        (SpecDiff.applyBody ls rest).map (fun r => (xs ++ r.1, r.2)) := by
  induction xs with
  | nil =>
    intro ls rest
    cases h : SpecDiff.applyBody ls rest <;> simp [h]
  | cons x xs ih =>
    intro ls rest
    simp only [List.map_cons, List.cons_append]
    rw [show SpecDiff.applyBody (.ins x :: (xs.map .ins ++ ls)) rest =
          (SpecDiff.applyBody (xs.map .ins ++ ls) rest).map (fun r => (x :: r.1, r.2))
        from rfl]
    rw [ih]
    cases h : SpecDiff.applyBody ls rest <;> simp [h]

theorem hunkOldCount_append (l₁ l₂ : List SpecDiff.PatchLine) :
    SpecDiff.hunkOldCount (l₁ ++ l₂) =
      SpecDiff.hunkOldCount l₁ + SpecDiff.hunkOldCount l₂ := by
  induction l₁ with
  | nil => simp [SpecDiff.hunkOldCount]
  | cons x xs ih => cases x <;> simp [SpecDiff.hunkOldCount, ih] <;> omega

theorem hunkNewCount_append (l₁ l₂ : List SpecDiff.PatchLine) :
    SpecDiff.hunkNewCount (l₁ ++ l₂) =
      SpecDiff.hunkNewCount l₁ + SpecDiff.hunkNewCount l₂ := by
  induction l₁ with
  | nil => simp [SpecDiff.hunkNewCount]
  | cons x xs ih => cases x <;> simp [SpecDiff.hunkNewCount, ih] <;> omega

theorem hunkOldCount_ctx (xs : List String) :
    SpecDiff.hunkOldCount (xs.map .ctx) = xs.length := by
  induction xs with
  | nil => rfl
  | cons x xs ih => simp [SpecDiff.hunkOldCount, ih]

theorem hunkOldCount_del (xs : List String) :
    SpecDiff.hunkOldCount (xs.map .del) = xs.length := by
  induction xs with
  | nil => rfl
  | cons x xs ih => simp [SpecDiff.hunkOldCount, ih]

theorem hunkOldCount_ins (xs : List String) :
    SpecDiff.hunkOldCount (xs.map .ins) = 0 := by
  induction xs with
  | nil => rfl
  | cons x xs ih => simpa [SpecDiff.hunkOldCount] using ih

theorem hunkNewCount_ctx (xs : List String) :
    SpecDiff.hunkNewCount (xs.map .ctx) = xs.length := by
  induction xs with
  | nil => rfl
  | cons x xs ih => simp [SpecDiff.hunkNewCount, ih]

theorem hunkNewCount_del (xs : List String) :
    SpecDiff.hunkNewCount (xs.map .del) = 0 := by
  induction xs with
  | nil => rfl
  | cons x xs ih => simpa [SpecDiff.hunkNewCount] using ih

theorem hunkNewCount_ins (xs : List String) :
    SpecDiff.hunkNewCount (xs.map .ins) = xs.length := by
  induction xs with
  | nil => rfl
  | cons x xs ih => simp [SpecDiff.hunkNewCount, ih]

/-- Applying the hunk built from a prefix/suffix decomposition reproduces the
new content: `p₀ ++ cb` is the unchanged prefix (`cb` its trailing context),
`ca ++ s'` the unchanged suffix (`ca` its leading context), and the hunk
replaces `oldMid` by `newMid` between them. -/
theorem applyHunks_single (p₀ cb oldMid newMid ca s' : List String) :
    SpecDiff.applyHunks (p₀ ++ (cb ++ (oldMid ++ (ca ++ s')))) 0
      [⟨p₀.length + 1, cb.length + oldMid.length + ca.length,
        p₀.length + 1, cb.length + newMid.length + ca.length,
        cb.map .ctx ++ oldMid.map .del ++ newMid.map .ins ++ ca.map .ctx⟩] =
      some (p₀ ++ (cb ++ (newMid ++ (ca ++ s')))) := by
  have h4 : SpecDiff.applyBody (ca.map .ctx) (ca ++ s') = some (ca, ca.length) := by
    have h := applyBody_ctx_chunk ca [] s'
    simpa [SpecDiff.applyBody] using h
  have h3 : SpecDiff.applyBody (newMid.map .ins ++ ca.map .ctx) (ca ++ s') =
      some (newMid ++ ca, ca.length) := by
    rw [applyBody_ins_chunk, h4]; rfl
  have h2 : SpecDiff.applyBody (oldMid.map .del ++ (newMid.map .ins ++ ca.map .ctx))
      (oldMid ++ (ca ++ s')) = some (newMid ++ ca, ca.length + oldMid.length) := by
    rw [applyBody_del_chunk, h3]; rfl
  have h1 : SpecDiff.applyBody
      (cb.map .ctx ++ (oldMid.map .del ++ (newMid.map .ins ++ ca.map .ctx)))
      (cb ++ (oldMid ++ (ca ++ s'))) =
      some (cb ++ (newMid ++ ca), ca.length + oldMid.length + cb.length) := by
    rw [applyBody_ctx_chunk, h2]; rfl
  have hbody : SpecDiff.applyBody
      (cb.map .ctx ++ oldMid.map .del ++ newMid.map .ins ++ ca.map .ctx)
      (cb ++ (oldMid ++ (ca ++ s'))) =
      some (cb ++ (newMid ++ ca), ca.length + oldMid.length + cb.length) := by
    have hb : cb.map SpecDiff.PatchLine.ctx ++ oldMid.map SpecDiff.PatchLine.del ++
          newMid.map SpecDiff.PatchLine.ins ++ ca.map SpecDiff.PatchLine.ctx =
        cb.map .ctx ++ (oldMid.map .del ++ (newMid.map .ins ++ ca.map .ctx)) := by
      simp [List.append_assoc]
    rw [hb]; exact h1
  have hdrop : (p₀ ++ (cb ++ (oldMid ++ (ca ++ s')))).drop (p₀.length + 1 - 1) =
      cb ++ (oldMid ++ (ca ++ s')) := by
    simp
  have htail : (p₀ ++ (cb ++ (oldMid ++ (ca ++ s')))).drop
      (p₀.length + 1 - 1 + (ca.length + oldMid.length + cb.length)) = s' := by
    have hrw : p₀ ++ (cb ++ (oldMid ++ (ca ++ s'))) = (p₀ ++ cb ++ oldMid ++ ca) ++ s' := by
      simp [List.append_assoc]
    have hlen : p₀.length + 1 - 1 + (ca.length + oldMid.length + cb.length) =
        (p₀ ++ cb ++ oldMid ++ ca).length := by
      simp; omega
    rw [hrw, hlen, List.drop_left]
  have htake : ((p₀ ++ (cb ++ (oldMid ++ (ca ++ s')))).drop 0).take (p₀.length + 1 - 1 - 0) =
      p₀ := by
    simp
  simp only [SpecDiff.applyHunks]
  rw [if_neg (by omega)]
  rw [if_neg (by
    simp only [ne_eq, not_or, not_not]
    constructor <;>
      simp [hunkOldCount_append, hunkNewCount_append, hunkOldCount_ctx, hunkOldCount_del,
            hunkOldCount_ins, hunkNewCount_ctx, hunkNewCount_del, hunkNewCount_ins] <;>
      omega)]
  rw [hdrop, hbody]
  simp only [SpecDiff.applyHunks]
  rw [htail, htake]
  simp [List.append_assoc]

/-- A prefix followed by the drop of its length restores the list. -/
theorem prefix_append_drop (l₁ l₂ : List String) (h : l₁ <+: l₂) :
    l₁ ++ l₂.drop l₁.length = l₂ := by
  obtain ⟨t, ht⟩ := h
  rw [← ht, List.drop_left]

/-- C3: for every file path and every pair of non-empty texts,
`applyPatch(original, createUnifiedDiff(path, original, modified))` returns
exactly `modified` — the generated unified diff always applies cleanly back
onto the original and reproduces the modified version. -/
theorem createUnifiedDiff_applyPatch_roundtrip (path : String)
    (oldContent newContent : SpecDiff.Text)
    (h1 : oldContent ≠ [""]) (h2 : newContent ≠ [""]) :
    SpecDiff.applyPatch oldContent (SpecDiff.createUnifiedDiff path oldContent newContent) =
      some newContent := by
  simp only [SpecDiff.createUnifiedDiff, SpecDiff.applyPatch]
  set p := SpecDiff.commonStart oldContent newContent with hp
  set oldRest := List.drop p.length oldContent with horest
  set newRest := List.drop p.length newContent with hnrest
  set s := SpecDiff.commonEnd oldRest newRest with hsfx
  set oldMid := SpecDiff.dropEnd s.length oldRest with homid
  set newMid := SpecDiff.dropEnd s.length newRest with hnmid
  have hOldSplit : p ++ oldRest = oldContent := by
    rw [horest, hp]
    exact prefix_append_drop _ _ (commonStart_prefix_left oldContent newContent)
  have hNewSplit : p ++ newRest = newContent := by
    rw [hnrest, hp]
    exact prefix_append_drop _ _ (commonStart_prefix_right oldContent newContent)
  have hOldRest : oldMid ++ s = oldRest := by
    rw [homid, hsfx]
    exact dropEnd_append_of_suffix _ _ (commonEnd_suffix_left _ _)
  have hNewRest : newMid ++ s = newRest := by
    rw [hnmid, hsfx]
    exact dropEnd_append_of_suffix _ _ (commonEnd_suffix_right _ _)
  by_cases hmid : oldMid = [] ∧ newMid = []
  · rw [if_pos hmid]
    have heq : oldContent = newContent := by
      obtain ⟨hm1, hm2⟩ := hmid
      rw [← hOldSplit, ← hNewSplit, ← hOldRest, ← hNewRest, hm1, hm2]
    rw [show SpecDiff.applyHunks oldContent 0
          (SpecDiff.FilePatch.mk ("a/" ++ path) ("b/" ++ path) []).hunks =
        some (List.drop 0 oldContent) from rfl]
    rw [List.drop_zero, heq]
  · rw [if_neg hmid]
    have hcb : p.take (p.length - 3) ++ SpecDiff.takeEnd 3 p = p := by
      rw [show SpecDiff.takeEnd 3 p = p.drop (p.length - 3) from rfl]
      exact List.take_append_drop _ _
    have hca : s.take 3 ++ s.drop 3 = s := List.take_append_drop 3 s
    have hstart : p.length - (SpecDiff.takeEnd 3 p).length = (p.take (p.length - 3)).length := by
      simp [SpecDiff.takeEnd]
      omega
    have hOldShape : oldContent =
        p.take (p.length - 3) ++
          (SpecDiff.takeEnd 3 p ++ (oldMid ++ (s.take 3 ++ s.drop 3))) := by
      rw [hca, hOldRest, ← List.append_assoc, hcb, hOldSplit]
    have hNewShape : newContent =
        p.take (p.length - 3) ++
          (SpecDiff.takeEnd 3 p ++ (newMid ++ (s.take 3 ++ s.drop 3))) := by
      rw [hca, hNewRest, ← List.append_assoc, hcb, hNewSplit]
    rw [show ∀ h : SpecDiff.DiffHunk,
          (SpecDiff.FilePatch.mk ("a/" ++ path) ("b/" ++ path) [h]).hunks = [h] from
        fun h => rfl]
    rw [hstart]
    conv_lhs => rw [hOldShape]
    rw [applyHunks_single, ← hNewShape]

/-- C3 witness: the round trip at a concrete three-line edit. -/
theorem createUnifiedDiff_applyPatch_roundtrip_witness :
    SpecDiff.applyPatch ["a", "b", "c"]
        (SpecDiff.createUnifiedDiff "main.tf" ["a", "b", "c"] ["a", "x", "c"]) =
      some ["a", "x", "c"] :=
  createUnifiedDiff_applyPatch_roundtrip "main.tf" ["a", "b", "c"] ["a", "x", "c"]
    (by decide) (by decide)
